import Mathlib

/-!
Verification of `lull::CalculateTesselatedQuadVertices` from
`lullaby/util/mesh.h`.

The C++ function is shallowly embedded over the reals: `float` arithmetic is
modelled by real arithmetic and `sinf` / `cosf` / `M_PI` by `Real.sin`,
`Real.cos` and `Real.pi`.  The source preallocates a vector and fills it
through a single monotonically increasing write index; we model the output as
the list of vertices in emission order (left tab column, interior columns with
their per-column tab vertices, right tab column, then the corner fans, exactly
as the loops of the source run).
-/

namespace Lull

/-- A vertex as written by `SetPosition` / `SetUv0`: a 3-D position and a 2-D
texture coordinate. -/
structure Vertex where
  px : ℝ
  py : ℝ
  pz : ℝ
  u : ℝ
  v : ℝ

/-- The corner-mask value `CornerMask::kNone` (bitmask over a `uint32_t`). -/
def kNone : ℕ := 0

/-- The corner-mask bit `CornerMask::kTopRight` (`1 << 0`). -/
def kTopRight : ℕ := 1

/-- The corner-mask bit `CornerMask::kBottomRight` (`1 << 1`). -/
def kBottomRight : ℕ := 2

/-- The corner-mask bit `CornerMask::kBottomLeft` (`1 << 2`). -/
def kBottomLeft : ℕ := 4

/-- The corner-mask bit `CornerMask::kTopLeft` (`1 << 3`). -/
def kTopLeft : ℕ := 8

/-- The corner-mask value `CornerMask::kAll`, the union of the four bits. -/
def kAll : ℕ := 15

/-- The grid fraction `static_cast<float>(k) / static_cast<float>(n - 1)` used
for both axes of the interior grid (`x_fraction`, `y_fraction` in the
source). -/
noncomputable def gridFraction (n k : ℕ) : ℝ := (k : ℝ) / ((n : ℝ) - 1)

/-- The interior extent `size - (2.0f * corner_radius)` (`interior_size_x`,
`interior_size_y` in the source). -/
def interiorSize (size r : ℝ) : ℝ := size - 2 * r

/-- The interior grid coordinate
`(fraction * interior_size) - half_interior_size` (`x_val`, `y_val` in the
source). -/
noncomputable def interiorCoord (size r : ℝ) (n k : ℕ) : ℝ :=
  gridFraction n k * interiorSize size r - interiorSize size r / 2

/-- The texture inset `corner_radius / size` (`u_texture_inset`,
`v_texture_inset` in the source). -/
noncomputable def texInset (size r : ℝ) : ℝ := r / size

/-- The texture range `1.0f - (2.0f * inset)` (`u_texture_range`,
`v_texture_range` in the source). -/
noncomputable def texRange (size r : ℝ) : ℝ := 1 - 2 * texInset size r

/-- The texture `u` coordinate `u_texture_inset + (x_fraction * u_texture_range)`
of an interior column. -/
noncomputable def uCoord (size r : ℝ) (n k : ℕ) : ℝ :=
  texInset size r + gridFraction n k * texRange size r

/-- The texture `v` coordinate
`v_texture_inset + ((1.0f - y_fraction) * v_texture_range)` of an interior row
(the `v` axis is flipped in the source). -/
noncomputable def vCoord (size r : ℝ) (n k : ℕ) : ℝ :=
  texInset size r + (1 - gridFraction n k) * texRange size r

/-- The left tab column (points `A`-`B` of the source diagram): one vertex per
interior row at `x = -size_x / 2`, `u = 0`. -/
noncomputable def leftTab (size_x size_y r : ℝ) (niy : ℕ) : List Vertex :=
  (List.range niy).map fun y =>
    { px := -(size_x / 2), py := interiorCoord size_y r niy y, pz := 0,
      u := 0, v := vCoord size_y r niy y }

/-- The right tab column (points `G`-`H` of the source diagram): one vertex per
interior row at `x = size_x / 2`, `u = 1`. -/
noncomputable def rightTab (size_x size_y r : ℝ) (niy : ℕ) : List Vertex :=
  (List.range niy).map fun y =>
    { px := size_x / 2, py := interiorCoord size_y r niy y, pz := 0,
      u := 1, v := vCoord size_y r niy y }

/-- One interior column of the grid: an optional bottom tab vertex
(`y = -size_y / 2`, `v = 1`), the `niy` interior vertices, and an optional top
tab vertex (`y = size_y / 2`, `v = 0`); the tab vertices are emitted exactly
when `corner_verts > 0`. -/
noncomputable def interiorColumn (size_x size_y r : ℝ) (nix niy corner_verts : ℕ)
    (x : ℕ) : List Vertex :=
  (if 0 < corner_verts then
    [{ px := interiorCoord size_x r nix x, py := -(size_y / 2), pz := 0,
       u := uCoord size_x r nix x, v := 1 }]
   else [])
  ++ ((List.range niy).map fun y =>
    { px := interiorCoord size_x r nix x, py := interiorCoord size_y r niy y,
      pz := 0,
      u := uCoord size_x r nix x, v := vCoord size_y r niy y })
  ++ (if 0 < corner_verts then
    [{ px := interiorCoord size_x r nix x, py := size_y / 2, pz := 0,
       u := uCoord size_x r nix x, v := 0 }]
   else [])

/-- The fan angle `(static_cast<float>(i + 1) / corner_verts) * (M_PI / 2)`. -/
noncomputable def theta (corner_verts i : ℕ) : ℝ :=
  ((i : ℝ) + 1) / (corner_verts : ℝ) * (Real.pi / 2)

/-- The bottom-left fan offset `(-r_sin_theta, -r_cos_theta)`. -/
noncomputable def llOffset (r : ℝ) (corner_verts i : ℕ) : ℝ × ℝ :=
  (-(r * Real.sin (theta corner_verts i)), -(r * Real.cos (theta corner_verts i)))

/-- The top-left fan offset `(-r_cos_theta, r_sin_theta)`. -/
noncomputable def ulOffset (r : ℝ) (corner_verts i : ℕ) : ℝ × ℝ :=
  (-(r * Real.cos (theta corner_verts i)), r * Real.sin (theta corner_verts i))

/-- The bottom-right fan offset `(r_cos_theta, -r_sin_theta)`. -/
noncomputable def lrOffset (r : ℝ) (corner_verts i : ℕ) : ℝ × ℝ :=
  (r * Real.cos (theta corner_verts i), -(r * Real.sin (theta corner_verts i)))

/-- The top-right fan offset `(r_sin_theta, r_cos_theta)`. -/
noncomputable def urOffset (r : ℝ) (corner_verts i : ℕ) : ℝ × ℝ :=
  (r * Real.sin (theta corner_verts i), r * Real.cos (theta corner_verts i))

/-- The lambda `unround_corner` of the source: rescale an offset by
`corner_radius / max(|offset.x|, |offset.y|)`. -/
noncomputable def unround_corner (r : ℝ) (offset : ℝ × ℝ) : ℝ × ℝ :=
  (offset.1 * (r / max |offset.1| |offset.2|),
   offset.2 * (r / max |offset.1| |offset.2|))

/-- The bottom-left offset after masking: unrounded exactly when the
`kBottomLeft` bit of `corner_mask` is clear. -/
noncomputable def llOffsetMasked (r : ℝ) (corner_verts i corner_mask : ℕ) : ℝ × ℝ :=
  if corner_mask &&& kBottomLeft = kNone then
    unround_corner r (llOffset r corner_verts i)
  else llOffset r corner_verts i

/-- The top-left offset after masking: unrounded exactly when the `kTopLeft`
bit of `corner_mask` is clear. -/
noncomputable def ulOffsetMasked (r : ℝ) (corner_verts i corner_mask : ℕ) : ℝ × ℝ :=
  if corner_mask &&& kTopLeft = kNone then
    unround_corner r (ulOffset r corner_verts i)
  else ulOffset r corner_verts i

/-- The bottom-right offset after masking: unrounded exactly when the
`kBottomRight` bit of `corner_mask` is clear. -/
noncomputable def lrOffsetMasked (r : ℝ) (corner_verts i corner_mask : ℕ) : ℝ × ℝ :=
  if corner_mask &&& kBottomRight = kNone then
    unround_corner r (lrOffset r corner_verts i)
  else lrOffset r corner_verts i

/-- The top-right offset after masking: unrounded exactly when the `kTopRight`
bit of `corner_mask` is clear. -/
noncomputable def urOffsetMasked (r : ℝ) (corner_verts i corner_mask : ℕ) : ℝ × ℝ :=
  if corner_mask &&& kTopRight = kNone then
    unround_corner r (urOffset r corner_verts i)
  else urOffset r corner_verts i

/-- A fan vertex: position is the interior-rectangle anchor plus the offset,
texture coordinate is the uv anchor plus the offset scaled by
`uv_scale = (1 / size_x, -1 / size_y)` componentwise. -/
noncomputable def fanVertex (size_x size_y : ℝ) (anchorXY anchorUV offset : ℝ × ℝ) :
    Vertex :=
  { px := anchorXY.1 + offset.1, py := anchorXY.2 + offset.2, pz := 0,
    u := anchorUV.1 + offset.1 * (1 / size_x),
    v := anchorUV.2 + offset.2 * (-(1 / size_y)) }

/-- One iteration of the fan loop: the four corner vertices emitted for angle
step `i`, in source order bottom-left, top-left, bottom-right, top-right. -/
noncomputable def fanStep (size_x size_y r : ℝ) (corner_verts corner_mask i : ℕ) :
    List Vertex :=
  [fanVertex size_x size_y
     (-(interiorSize size_x r / 2), -(interiorSize size_y r / 2))
     (texInset size_x r, 1 - texInset size_y r)
     (llOffsetMasked r corner_verts i corner_mask),
   fanVertex size_x size_y
     (-(interiorSize size_x r / 2), interiorSize size_y r / 2)
     (texInset size_x r, texInset size_y r)
     (ulOffsetMasked r corner_verts i corner_mask),
   fanVertex size_x size_y
     (interiorSize size_x r / 2, -(interiorSize size_y r / 2))
     (1 - texInset size_x r, 1 - texInset size_y r)
     (lrOffsetMasked r corner_verts i corner_mask),
   fanVertex size_x size_y
     (interiorSize size_x r / 2, interiorSize size_y r / 2)
     (1 - texInset size_x r, texInset size_y r)
     (urOffsetMasked r corner_verts i corner_mask)]

/-- The number of vertices emitted before the corner-fan loop runs when
`corner_verts > 0`: the left tab column (`niy` vertices), the interior columns
with their two tab vertices each (`nix * (niy + 2)`), and the right tab column
(`niy`). -/
def fanStart (nix niy : ℕ) : ℕ := niy + nix * (niy + 2) + niy

/-- The four interior-rectangle corner anchors of the fan loop
(`lower_left_xy`, `upper_left_xy`, `lower_right_xy`, `upper_right_xy` in the
source), indexed in emission order. -/
noncomputable def cornerAnchor (size_x size_y r : ℝ) : ℕ → ℝ × ℝ
  | 0 => (-(interiorSize size_x r / 2), -(interiorSize size_y r / 2))
  | 1 => (-(interiorSize size_x r / 2), interiorSize size_y r / 2)
  | 2 => (interiorSize size_x r / 2, -(interiorSize size_y r / 2))
  | _ => (interiorSize size_x r / 2, interiorSize size_y r / 2)

/-- Rotation by 90 degrees about the origin, counter-clockwise in the
`+x`-right / `+y`-up convention of the source. -/
def rotate90 (p : ℝ × ℝ) : ℝ × ℝ := (-p.2, p.1)

/-- The vertex sequence emitted after validation: left tab column (when
`corner_verts > 0`), the interior columns in column-major order, then the right
tab column and the interleaved corner fans (when `corner_verts > 0`).  `nix`
and `niy` are `num_interior_verts_x` / `num_interior_verts_y`, `r` the already
clamped corner radius. -/
noncomputable def quadBody (size_x size_y : ℝ) (nix niy : ℕ) (r : ℝ)
    (corner_verts corner_mask : ℕ) : List Vertex :=
  (if 0 < corner_verts then leftTab size_x size_y r niy else [])
  ++ (List.range nix).flatMap (interiorColumn size_x size_y r nix niy corner_verts)
  ++ (if 0 < corner_verts then
        rightTab size_x size_y r niy
        ++ (List.range corner_verts).flatMap
             (fanStep size_x size_y r corner_verts corner_mask)
      else [])

/-- The reassignment
`corner_radius = std::min(corner_radius, std::min(size_x, size_y) / 2.0f)`
performed right after the size check: the corner radius actually used by all
later computation. -/
noncomputable def clampedRadius (size_x size_y corner_radius : ℝ) : ℝ :=
  min corner_radius (min size_x size_y / 2)

/-- The embedding of `lull::CalculateTesselatedQuadVertices`: validation
(returning the empty sequence on failure, as the source returns an empty
vector), clamping of the corner radius, then the vertex emission. -/
noncomputable def CalculateTesselatedQuadVertices (size_x size_y : ℝ)
    (num_verts_x num_verts_y : ℤ) (corner_radius : ℝ) (corner_verts : ℤ)
    (corner_mask : ℕ) : List Vertex :=
  if size_x < 0 ∨ size_y < 0 then []
  else if 0 < corner_verts then
    if num_verts_x < 4 ∨ num_verts_y < 4 then []
    else
      quadBody size_x size_y (num_verts_x - 2).toNat (num_verts_y - 2).toNat
        (clampedRadius size_x size_y corner_radius) corner_verts.toNat corner_mask
  else if corner_verts = 0 then
    if num_verts_x < 2 ∨ num_verts_y < 2 then []
    else
      quadBody size_x size_y num_verts_x.toNat num_verts_y.toNat
        (clampedRadius size_x size_y corner_radius) 0 corner_mask
  else []

/-! ### Length lemmas -/

lemma length_flatMap_range {α : Type} (f : ℕ → List α) (c n : ℕ)
    (h : ∀ i, (f i).length = c) : ((List.range n).flatMap f).length = c * n := by
  induction n with
  | zero => simp
  | succ n ih =>
      rw [List.range_succ, List.flatMap_append, List.length_append, ih]
      simp [h, Nat.mul_succ]

lemma length_interiorColumn (sx sy r : ℝ) (nix niy cv x : ℕ) :
    (interiorColumn sx sy r nix niy cv x).length =
      niy + (if 0 < cv then 2 else 0) := by
  by_cases h : 0 < cv <;> simp [interiorColumn, h]

lemma length_quadBody (sx sy : ℝ) (nix niy : ℕ) (r : ℝ) (cv mask : ℕ) :
    (quadBody sx sy nix niy r cv mask).length =
      (if 0 < cv then niy else 0) + nix * (niy + (if 0 < cv then 2 else 0))
        + (if 0 < cv then niy + 4 * cv else 0) := by
  rw [quadBody, List.length_append, List.length_append,
    length_flatMap_range _ (niy + (if 0 < cv then 2 else 0)) nix
      (fun i => length_interiorColumn sx sy r nix niy cv i)]
  by_cases h : 0 < cv
  · simp only [h, if_pos, List.length_append, leftTab, rightTab, List.length_map,
      List.length_range]
    rw [length_flatMap_range _ 4 cv (fun i => by simp [fanStep])]
    ring
  · simp [h, leftTab, rightTab, Nat.mul_comm]

/-! ### Reduction of the validated branches -/

lemma calc_valid_pos (sx sy : ℝ) (nvx nvy : ℤ) (cr : ℝ) (cv : ℤ) (mask : ℕ)
    (hsx : 0 ≤ sx) (hsy : 0 ≤ sy) (hcv : 0 < cv) (hx : 4 ≤ nvx) (hy : 4 ≤ nvy) :
    CalculateTesselatedQuadVertices sx sy nvx nvy cr cv mask =
      quadBody sx sy (nvx - 2).toNat (nvy - 2).toNat
        (clampedRadius sx sy cr) cv.toNat mask := by
  rw [CalculateTesselatedQuadVertices,
    if_neg (by push_neg; exact ⟨hsx, hsy⟩ : ¬(sx < 0 ∨ sy < 0)),
    if_pos hcv, if_neg (by push_neg; exact ⟨hx, hy⟩ : ¬(nvx < 4 ∨ nvy < 4))]

lemma calc_valid_zero (sx sy : ℝ) (nvx nvy : ℤ) (cr : ℝ) (mask : ℕ)
    (hsx : 0 ≤ sx) (hsy : 0 ≤ sy) (hx : 2 ≤ nvx) (hy : 2 ≤ nvy) :
    CalculateTesselatedQuadVertices sx sy nvx nvy cr 0 mask =
      quadBody sx sy nvx.toNat nvy.toNat (clampedRadius sx sy cr) 0 mask := by
  rw [CalculateTesselatedQuadVertices,
    if_neg (by push_neg; exact ⟨hsx, hsy⟩ : ¬(sx < 0 ∨ sy < 0)),
    if_neg (lt_irrefl (0:ℤ)), if_pos rfl,
    if_neg (by push_neg; exact ⟨hx, hy⟩ : ¬(nvx < 2 ∨ nvy < 2))]

/-- C1: for every parameter set accepted by validation the output length is
`num_verts_x * num_verts_y` when `corner_verts = 0` and
`(num_verts_x-2)*(num_verts_y-2) + 4*corner_verts + 2*(num_verts_x-2) +
2*(num_verts_y-2)` when `corner_verts > 0`. -/
theorem C1_output_length (sx sy : ℝ) (nvx nvy : ℤ) (cr : ℝ) (cv : ℤ) (mask : ℕ)
    (hsx : 0 ≤ sx) (hsy : 0 ≤ sy)
    (hvalid : (cv = 0 ∧ 2 ≤ nvx ∧ 2 ≤ nvy) ∨ (0 < cv ∧ 4 ≤ nvx ∧ 4 ≤ nvy)) :
    (cv = 0 →
      ((CalculateTesselatedQuadVertices sx sy nvx nvy cr cv mask).length : ℤ) =
        nvx * nvy) ∧
    (0 < cv →
      ((CalculateTesselatedQuadVertices sx sy nvx nvy cr cv mask).length : ℤ) =
        (nvx - 2) * (nvy - 2) + 4 * cv + 2 * (nvx - 2) + 2 * (nvy - 2)) := by
  constructor
  · rintro rfl
    rcases hvalid with ⟨_, hx, hy⟩ | ⟨hcv, _, _⟩
    · rw [calc_valid_zero sx sy nvx nvy cr mask hsx hsy hx hy, length_quadBody]
      simp only [lt_irrefl, if_false]
      push_cast [Int.toNat_of_nonneg (by omega : (0:ℤ) ≤ nvx),
        Int.toNat_of_nonneg (by omega : (0:ℤ) ≤ nvy)]
      ring
    · exact absurd hcv (lt_irrefl 0)
  · intro hcv
    rcases hvalid with ⟨h0, _, _⟩ | ⟨_, hx, hy⟩
    · omega
    · rw [calc_valid_pos sx sy nvx nvy cr cv mask hsx hsy hcv hx hy, length_quadBody]
      have hcvN : 0 < cv.toNat := by omega
      simp only [hcvN, if_pos]
      push_cast [Int.toNat_of_nonneg (by omega : (0:ℤ) ≤ nvx - 2),
        Int.toNat_of_nonneg (by omega : (0:ℤ) ≤ nvy - 2),
        Int.toNat_of_nonneg (by omega : (0:ℤ) ≤ cv)]
      ring

/-- Witness for C1 at the spec's scenario B input: a 2×2 quad, 4×4 verts,
radius 3/10, 4 corner verts, full mask, giving 28 vertices. -/
theorem C1_output_length_witness :
    (0:ℝ) ≤ 2 ∧ (0:ℤ) < 4 ∧ (4:ℤ) ≤ 4 ∧
    ((CalculateTesselatedQuadVertices 2 2 4 4 (3/10) 4 kAll).length : ℤ) =
      (4 - 2) * (4 - 2) + 4 * 4 + 2 * (4 - 2) + 2 * (4 - 2) :=
  ⟨by norm_num, by norm_num, by norm_num,
    (C1_output_length 2 2 4 4 (3/10) 4 kAll (by norm_num) (by norm_num)
      (Or.inr ⟨by norm_num, by norm_num, by norm_num⟩)).2 (by norm_num)⟩

/-- C2: each invalid-parameter class (negative size, too few vertices for the
requested rounding mode, negative corner-vertex count) yields the empty
sequence — never a partially filled one — and on all other inputs none of the
failure branches is taken: the call returns a non-empty sequence. -/
theorem C2_validation (sx sy : ℝ) (nvx nvy : ℤ) (cr : ℝ) (cv : ℤ) (mask : ℕ) :
    ((sx < 0 ∨ sy < 0 ∨ (0 < cv ∧ (nvx < 4 ∨ nvy < 4)) ∨
        (cv = 0 ∧ (nvx < 2 ∨ nvy < 2)) ∨ cv < 0) →
      CalculateTesselatedQuadVertices sx sy nvx nvy cr cv mask = []) ∧
    (0 ≤ sx → 0 ≤ sy →
      ((0 < cv ∧ 4 ≤ nvx ∧ 4 ≤ nvy) ∨ (cv = 0 ∧ 2 ≤ nvx ∧ 2 ≤ nvy)) →
      CalculateTesselatedQuadVertices sx sy nvx nvy cr cv mask ≠ []) := by
  constructor
  · intro h
    rw [CalculateTesselatedQuadVertices]
    rcases h with h | h | ⟨hcv, h⟩ | ⟨hcv, h⟩ | hcv
    · rw [if_pos (Or.inl h)]
    · rw [if_pos (Or.inr h)]
    · by_cases hs : sx < 0 ∨ sy < 0
      · rw [if_pos hs]
      · rw [if_neg hs, if_pos hcv, if_pos h]
    · by_cases hs : sx < 0 ∨ sy < 0
      · rw [if_pos hs]
      · subst hcv
        rw [if_neg hs, if_neg (lt_irrefl (0:ℤ)), if_pos rfl, if_pos h]
    · by_cases hs : sx < 0 ∨ sy < 0
      · rw [if_pos hs]
      · rw [if_neg hs, if_neg (by omega : ¬(0:ℤ) < cv), if_neg (by omega : cv ≠ 0)]
  · rintro hsx hsy (⟨hcv, hx, hy⟩ | ⟨rfl, hx, hy⟩)
    · apply List.ne_nil_of_length_pos
      rw [calc_valid_pos sx sy nvx nvy cr cv mask hsx hsy hcv hx hy, length_quadBody]
      have h1 : 0 < cv.toNat := by omega
      have h2 : 0 < (nvy - 2).toNat := by omega
      simp only [h1, if_pos]
      exact Nat.add_pos_left (Nat.add_pos_left h2 _) _
    · apply List.ne_nil_of_length_pos
      rw [calc_valid_zero sx sy nvx nvy cr mask hsx hsy hx hy, length_quadBody]
      simp only [lt_irrefl, if_neg, if_false]
      have h1 : 0 < nvx.toNat := by omega
      have h2 : 0 < nvy.toNat := by omega
      simp only [Nat.add_zero, Nat.zero_add]
      exact Nat.mul_pos h1 h2

/-- Witness for C2 at a concrete invalid input: a negative width yields the
empty sequence. -/
theorem C2_validation_witness :
    (-1 : ℝ) < 0 ∧
    CalculateTesselatedQuadVertices (-1) 1 4 4 0 1 kAll = [] :=
  ⟨by norm_num,
    (C2_validation (-1) 1 4 4 0 1 kAll).1 (Or.inl (by norm_num))⟩

/-- C3: the generated output depends on `corner_radius` only through the
clamped value `min(corner_radius, min(size_x, size_y)/2)`, and that clamped
value never exceeds `min(size_x, size_y)/2`. -/
theorem C3_radius_clamped (sx sy : ℝ) (nvx nvy : ℤ) (cr : ℝ) (cv : ℤ) (mask : ℕ) :
    CalculateTesselatedQuadVertices sx sy nvx nvy cr cv mask =
      CalculateTesselatedQuadVertices sx sy nvx nvy (clampedRadius sx sy cr) cv mask
    ∧ clampedRadius sx sy cr ≤ min sx sy / 2 := by
  constructor
  · have hidem : clampedRadius sx sy (clampedRadius sx sy cr) = clampedRadius sx sy cr := by
      rw [clampedRadius, clampedRadius, min_assoc, min_self]
    rw [CalculateTesselatedQuadVertices, CalculateTesselatedQuadVertices, hidem]
  · exact min_le_right _ _

/-! ### Indexing machinery for the fan vertices -/

lemma getD_flatMap_range {α : Type} (f : ℕ → List α) (c n i k : ℕ) (d : α)
    (h : ∀ j, (f j).length = c) (hi : i < n) (hk : k < c) :
    ((List.range n).flatMap f).getD (c * i + k) d = (f i).getD k d := by
  induction n with
  | zero => omega
  | succ n ih =>
      rw [List.range_succ, List.flatMap_append]
      rcases Nat.lt_or_ge i n with hin | hin
      · rw [List.getD_append]
        · exact ih hin
        · rw [length_flatMap_range f c n h]
          have e1 : c * (i + 1) = c * i + c := by ring
          have e2 : c * (i + 1) ≤ c * n := Nat.mul_le_mul_left c hin
          linarith
      · have hi' : i = n := by omega
        subst hi'
        rw [List.getD_append_right _ _ _ _
            (by rw [length_flatMap_range f c i h]; exact Nat.le_add_right _ _),
          length_flatMap_range f c i h, Nat.add_sub_cancel_left]
        simp only [List.flatMap_cons, List.flatMap_nil, List.append_nil]

lemma length_fanStep (sx sy r : ℝ) (cv mask i : ℕ) :
    (fanStep sx sy r cv mask i).length = 4 := by
  simp [fanStep]

lemma quadBody_pos_decomp (sx sy : ℝ) (nix niy : ℕ) (r : ℝ) (cv mask : ℕ)
    (hcv : 0 < cv) :
    quadBody sx sy nix niy r cv mask =
      (leftTab sx sy r niy
        ++ (List.range nix).flatMap (interiorColumn sx sy r nix niy cv)
        ++ rightTab sx sy r niy)
      ++ (List.range cv).flatMap (fanStep sx sy r cv mask) := by
  rw [quadBody, if_pos hcv, if_pos hcv]
  simp [List.append_assoc]

lemma length_preFan (sx sy : ℝ) (nix niy : ℕ) (r : ℝ) (cv : ℕ) (hcv : 0 < cv) :
    (leftTab sx sy r niy
      ++ (List.range nix).flatMap (interiorColumn sx sy r nix niy cv)
      ++ rightTab sx sy r niy).length = fanStart nix niy := by
  rw [List.length_append, List.length_append,
    length_flatMap_range _ (niy + 2) nix
      (fun i => by rw [length_interiorColumn, if_pos hcv])]
  simp [leftTab, rightTab, fanStart, Nat.mul_comm]

lemma quadBody_getD_lt_fanStart (sx sy : ℝ) (nix niy : ℕ) (r : ℝ) (cv mask : ℕ)
    (hcv : 0 < cv) (j : ℕ) (hj : j < fanStart nix niy) (d : Vertex) :
    (quadBody sx sy nix niy r cv mask).getD j d =
      (leftTab sx sy r niy
        ++ (List.range nix).flatMap (interiorColumn sx sy r nix niy cv)
        ++ rightTab sx sy r niy).getD j d := by
  rw [quadBody_pos_decomp sx sy nix niy r cv mask hcv]
  exact List.getD_append
    (leftTab sx sy r niy
      ++ (List.range nix).flatMap (interiorColumn sx sy r nix niy cv)
      ++ rightTab sx sy r niy)
    ((List.range cv).flatMap (fanStep sx sy r cv mask)) d j
    ((length_preFan sx sy nix niy r cv hcv).symm ▸ hj)

lemma quadBody_fan_getD (sx sy : ℝ) (nix niy : ℕ) (r : ℝ) (cv mask : ℕ)
    (hcv : 0 < cv) (i k : ℕ) (hi : i < cv) (hk : k < 4) (d : Vertex) :
    (quadBody sx sy nix niy r cv mask).getD (fanStart nix niy + (4 * i + k)) d =
      (fanStep sx sy r cv mask i).getD k d := by
  rw [quadBody_pos_decomp sx sy nix niy r cv mask hcv,
    List.getD_append_right _ _ _ _
      (by rw [length_preFan sx sy nix niy r cv hcv]; omega),
    length_preFan sx sy nix niy r cv hcv]
  have : fanStart nix niy + (4 * i + k) - fanStart nix niy = 4 * i + k := by omega
  rw [this, getD_flatMap_range _ 4 cv i k d (length_fanStep sx sy r cv mask) hi hk]

lemma calc_fan_getD (sx sy : ℝ) (nvx nvy : ℤ) (cr : ℝ) (cv : ℤ) (mask : ℕ)
    (hsx : 0 ≤ sx) (hsy : 0 ≤ sy) (hcv : 0 < cv) (hx : 4 ≤ nvx) (hy : 4 ≤ nvy)
    (i k : ℕ) (hi : i < cv.toNat) (hk : k < 4) (d : Vertex) :
    (CalculateTesselatedQuadVertices sx sy nvx nvy cr cv mask).getD
        (fanStart (nvx - 2).toNat (nvy - 2).toNat + (4 * i + k)) d =
      (fanStep sx sy (clampedRadius sx sy cr) cv.toNat mask i).getD k d := by
  rw [calc_valid_pos sx sy nvx nvy cr cv mask hsx hsy hcv hx hy,
    quadBody_fan_getD sx sy (nvx - 2).toNat (nvy - 2).toNat
      (clampedRadius sx sy cr) cv.toNat mask (by omega) i k hi hk d]

/-! ### The fan angle and the unrounding rescale -/

lemma theta_pos (cv i : ℕ) (hcv : 0 < cv) : 0 < theta cv i := by
  rw [theta]
  have h1 : 0 < (i : ℝ) + 1 := by positivity
  have h2 : 0 < (cv : ℝ) := by exact_mod_cast hcv
  have h3 : 0 < Real.pi / 2 := by positivity
  exact mul_pos (div_pos h1 h2) h3

lemma theta_le (cv i : ℕ) (hi : i < cv) : theta cv i ≤ Real.pi / 2 := by
  rw [theta]
  have h2 : 0 < (cv : ℝ) := by exact_mod_cast (by omega : 0 < cv)
  have hfrac : ((i : ℝ) + 1) / (cv : ℝ) ≤ 1 := by
    rw [div_le_one h2]
    exact_mod_cast hi
  have h3 : 0 ≤ Real.pi / 2 := by positivity
  calc ((i : ℝ) + 1) / (cv : ℝ) * (Real.pi / 2) ≤ 1 * (Real.pi / 2) :=
        mul_le_mul_of_nonneg_right hfrac h3
    _ = Real.pi / 2 := one_mul _

lemma sin_theta_pos (cv i : ℕ) (hi : i < cv) : 0 < Real.sin (theta cv i) :=
  Real.sin_pos_of_pos_of_lt_pi (theta_pos cv i (by omega))
    (lt_of_le_of_lt (theta_le cv i hi) (by linarith [Real.pi_pos]))

lemma cos_theta_nonneg (cv i : ℕ) (hi : i < cv) : 0 ≤ Real.cos (theta cv i) :=
  Real.cos_nonneg_of_mem_Icc
    ⟨by linarith [theta_pos cv i (by omega : 0 < cv), Real.pi_pos],
     theta_le cv i hi⟩

lemma unround_max_abs (r : ℝ) (o : ℝ × ℝ) (hr : 0 ≤ r)
    (h : max |o.1| |o.2| = 0 → r = 0) :
    max |(unround_corner r o).1| |(unround_corner r o).2| = r := by
  rw [unround_corner]
  simp only [abs_mul]
  rw [← max_mul_of_nonneg _ _ (abs_nonneg (r / max |o.1| |o.2|))]
  rcases eq_or_lt_of_le (le_max_of_le_left (abs_nonneg o.1)) with h0 | h0
  · rw [← h0, zero_mul]
    exact (h h0.symm).symm
  · rw [abs_of_nonneg (div_nonneg hr (le_of_lt h0)), mul_comm,
      div_mul_cancel₀ r h0.ne']

lemma unround_abs_le (r : ℝ) (o : ℝ × ℝ) (hr : 0 ≤ r) :
    |(unround_corner r o).1| ≤ r ∧ |(unround_corner r o).2| ≤ r := by
  rcases eq_or_lt_of_le (le_max_of_le_left (abs_nonneg o.1)) with h0 | h0
  · have hm : max |o.1| |o.2| = 0 := h0.symm
    have h1 : o.1 = 0 :=
      abs_eq_zero.mp (le_antisymm (hm ▸ le_max_left |o.1| |o.2|) (abs_nonneg _))
    have h2 : o.2 = 0 :=
      abs_eq_zero.mp (le_antisymm (hm ▸ le_max_right |o.1| |o.2|) (abs_nonneg _))
    rw [unround_corner, h1, h2]
    simp [hr]
  · have hs : 0 ≤ r / max |o.1| |o.2| := div_nonneg hr (le_of_lt h0)
    constructor
    · rw [unround_corner]
      simp only [abs_mul, abs_of_nonneg hs]
      calc |o.1| * (r / max |o.1| |o.2|)
          ≤ max |o.1| |o.2| * (r / max |o.1| |o.2|) :=
            mul_le_mul_of_nonneg_right (le_max_left _ _) hs
        _ = r := by rw [mul_comm, div_mul_cancel₀ r (ne_of_gt h0)]
    · rw [unround_corner]
      simp only [abs_mul, abs_of_nonneg hs]
      calc |o.2| * (r / max |o.1| |o.2|)
          ≤ max |o.1| |o.2| * (r / max |o.1| |o.2|) :=
            mul_le_mul_of_nonneg_right (le_max_right _ _) hs
        _ = r := by rw [mul_comm, div_mul_cancel₀ r (ne_of_gt h0)]

lemma length_quadBody_pos (sx sy : ℝ) (nix niy : ℕ) (r : ℝ) (cv mask : ℕ)
    (hcv : 0 < cv) :
    (quadBody sx sy nix niy r cv mask).length = fanStart nix niy + 4 * cv := by
  rw [length_quadBody]
  simp only [hcv, if_pos]
  rw [fanStart]
  ring

lemma clampedRadius_nonneg (sx sy cr : ℝ) (hsx : 0 ≤ sx) (hsy : 0 ≤ sy)
    (hcr : 0 ≤ cr) : 0 ≤ clampedRadius sx sy cr :=
  le_min hcr (div_nonneg (le_min hsx hsy) (by norm_num))

lemma radius_eq_zero_of_sin_component (r t : ℝ) (hs : 0 < Real.sin t)
    (h : r * Real.sin t = 0) : r = 0 := by
  rcases mul_eq_zero.mp h with h | h
  · exact h
  · exact absurd h (ne_of_gt hs)

lemma fanStep_getD_congr (sx sy r : ℝ) (cv i : ℕ) (m₁ m₂ : ℕ) (k : ℕ) (d : Vertex)
    (hk : k < 4)
    (h0 : k = 0 → ((m₁ &&& kBottomLeft = kNone) ↔ (m₂ &&& kBottomLeft = kNone)))
    (h1 : k = 1 → ((m₁ &&& kTopLeft = kNone) ↔ (m₂ &&& kTopLeft = kNone)))
    (h2 : k = 2 → ((m₁ &&& kBottomRight = kNone) ↔ (m₂ &&& kBottomRight = kNone)))
    (h3 : k = 3 → ((m₁ &&& kTopRight = kNone) ↔ (m₂ &&& kTopRight = kNone))) :
    (fanStep sx sy r cv m₁ i).getD k d = (fanStep sx sy r cv m₂ i).getD k d := by
  interval_cases k
  · simp only [fanStep, List.getD_cons_zero]
    rw [llOffsetMasked, llOffsetMasked]
    by_cases hb : m₁ &&& kBottomLeft = kNone
    · rw [if_pos hb, if_pos ((h0 rfl).mp hb)]
    · rw [if_neg hb, if_neg (fun hc => hb ((h0 rfl).mpr hc))]
  · simp only [fanStep, List.getD_cons_succ, List.getD_cons_zero]
    rw [ulOffsetMasked, ulOffsetMasked]
    by_cases hb : m₁ &&& kTopLeft = kNone
    · rw [if_pos hb, if_pos ((h1 rfl).mp hb)]
    · rw [if_neg hb, if_neg (fun hc => hb ((h1 rfl).mpr hc))]
  · simp only [fanStep, List.getD_cons_succ, List.getD_cons_zero]
    rw [lrOffsetMasked, lrOffsetMasked]
    by_cases hb : m₁ &&& kBottomRight = kNone
    · rw [if_pos hb, if_pos ((h2 rfl).mp hb)]
    · rw [if_neg hb, if_neg (fun hc => hb ((h2 rfl).mpr hc))]
  · simp only [fanStep, List.getD_cons_succ, List.getD_cons_zero]
    rw [urOffsetMasked, urOffsetMasked]
    by_cases hb : m₁ &&& kTopRight = kNone
    · rw [if_pos hb, if_pos ((h3 rfl).mp hb)]
    · rw [if_neg hb, if_neg (fun hc => hb ((h3 rfl).mpr hc))]

lemma fanStep_unrounded_slot (sx sy r : ℝ) (cv mask i s : ℕ) (d : Vertex)
    (hi : i < cv) (hr : 0 ≤ r) (hs4 : s < 4)
    (hb0 : s = 0 → mask &&& kBottomLeft = kNone)
    (hb1 : s = 1 → mask &&& kTopLeft = kNone)
    (hb2 : s = 2 → mask &&& kBottomRight = kNone)
    (hb3 : s = 3 → mask &&& kTopRight = kNone) :
    max |((fanStep sx sy r cv mask i).getD s d).px - (cornerAnchor sx sy r s).1|
        |((fanStep sx sy r cv mask i).getD s d).py - (cornerAnchor sx sy r s).2| =
      r := by
  have hsin := sin_theta_pos cv i hi
  have hcancel : ∀ a o : ℝ, a + o - a = o := fun a o => by ring
  interval_cases s
  · simp only [fanStep, List.getD_cons_zero, cornerAnchor, fanVertex]
    rw [llOffsetMasked, if_pos (hb0 rfl), hcancel, hcancel]
    refine unround_max_abs r _ hr (fun h0 => ?_)
    have h1 : |(llOffset r cv i).1| = 0 :=
      le_antisymm (h0 ▸ le_max_left _ _) (abs_nonneg _)
    simp only [llOffset, abs_eq_zero, neg_eq_zero] at h1
    exact radius_eq_zero_of_sin_component r _ hsin h1
  · simp only [fanStep, List.getD_cons_succ, List.getD_cons_zero, cornerAnchor,
      fanVertex]
    rw [ulOffsetMasked, if_pos (hb1 rfl), hcancel, hcancel]
    refine unround_max_abs r _ hr (fun h0 => ?_)
    have h1 : |(ulOffset r cv i).2| = 0 :=
      le_antisymm (h0 ▸ le_max_right _ _) (abs_nonneg _)
    simp only [ulOffset, abs_eq_zero] at h1
    exact radius_eq_zero_of_sin_component r _ hsin h1
  · simp only [fanStep, List.getD_cons_succ, List.getD_cons_zero, cornerAnchor,
      fanVertex]
    rw [lrOffsetMasked, if_pos (hb2 rfl), hcancel, hcancel]
    refine unround_max_abs r _ hr (fun h0 => ?_)
    have h1 : |(lrOffset r cv i).2| = 0 :=
      le_antisymm (h0 ▸ le_max_right _ _) (abs_nonneg _)
    simp only [lrOffset, abs_eq_zero, neg_eq_zero] at h1
    exact radius_eq_zero_of_sin_component r _ hsin h1
  · simp only [fanStep, List.getD_cons_succ, List.getD_cons_zero, cornerAnchor,
      fanVertex]
    rw [urOffsetMasked, if_pos (hb3 rfl), hcancel, hcancel]
    refine unround_max_abs r _ hr (fun h0 => ?_)
    have h1 : |(urOffset r cv i).1| = 0 :=
      le_antisymm (h0 ▸ le_max_left _ _) (abs_nonneg _)
    simp only [urOffset, abs_eq_zero] at h1
    exact radius_eq_zero_of_sin_component r _ hsin h1

/-- C4: for a validated rounded quad with nonnegative requested radius,
clearing one corner's bit (versus the all-enabled mask) keeps the output length
unchanged, keeps every vertex outside that corner's fan slots identical, and
each of that corner's fan vertices has an offset from its interior-rectangle
anchor with `max(|dx|, |dy|)` equal to the clamped corner radius (the arc point
projected onto the bounding square).  The slot `s` is the corner's position in
the per-angle emission order bottom-left, top-left, bottom-right, top-right. -/
theorem C4_one_corner_cleared (sx sy : ℝ) (nvx nvy : ℤ) (cr : ℝ) (cv : ℤ)
    (c s : ℕ) (d : Vertex)
    (hsx : 0 ≤ sx) (hsy : 0 ≤ sy) (hcr : 0 ≤ cr) (hcv : 0 < cv)
    (hx : 4 ≤ nvx) (hy : 4 ≤ nvy)
    (hcs : (c = kBottomLeft ∧ s = 0) ∨ (c = kTopLeft ∧ s = 1) ∨
           (c = kBottomRight ∧ s = 2) ∨ (c = kTopRight ∧ s = 3)) :
    (CalculateTesselatedQuadVertices sx sy nvx nvy cr cv (kAll ^^^ c)).length =
      (CalculateTesselatedQuadVertices sx sy nvx nvy cr cv kAll).length ∧
    (∀ j < (CalculateTesselatedQuadVertices sx sy nvx nvy cr cv (kAll ^^^ c)).length,
      (∀ i < cv.toNat,
        j ≠ fanStart (nvx - 2).toNat (nvy - 2).toNat + (4 * i + s)) →
      (CalculateTesselatedQuadVertices sx sy nvx nvy cr cv (kAll ^^^ c)).getD j d =
        (CalculateTesselatedQuadVertices sx sy nvx nvy cr cv kAll).getD j d) ∧
    (∀ i < cv.toNat,
      max |((CalculateTesselatedQuadVertices sx sy nvx nvy cr cv (kAll ^^^ c)).getD
              (fanStart (nvx - 2).toNat (nvy - 2).toNat + (4 * i + s)) d).px -
            (cornerAnchor sx sy (clampedRadius sx sy cr) s).1|
          |((CalculateTesselatedQuadVertices sx sy nvx nvy cr cv (kAll ^^^ c)).getD
              (fanStart (nvx - 2).toNat (nvy - 2).toNat + (4 * i + s)) d).py -
            (cornerAnchor sx sy (clampedRadius sx sy cr) s).2| =
        clampedRadius sx sy cr) := by
  have hr : 0 ≤ clampedRadius sx sy cr := clampedRadius_nonneg sx sy cr hsx hsy hcr
  have hcvN : 0 < cv.toNat := by omega
  have hmm : ∀ mask, CalculateTesselatedQuadVertices sx sy nvx nvy cr cv mask =
      quadBody sx sy (nvx - 2).toNat (nvy - 2).toNat (clampedRadius sx sy cr)
        cv.toNat mask :=
    fun mask => calc_valid_pos sx sy nvx nvy cr cv mask hsx hsy hcv hx hy
  refine ⟨?_, ?_, ?_⟩
  · rw [hmm, hmm, length_quadBody, length_quadBody]
  · intro j hj hnot
    rw [hmm] at hj ⊢
    rw [hmm]
    rw [length_quadBody_pos _ _ _ _ _ _ _ hcvN] at hj
    by_cases hjb : j < fanStart (nvx - 2).toNat (nvy - 2).toNat
    · rw [quadBody_getD_lt_fanStart _ _ _ _ _ _ _ hcvN j hjb d,
        quadBody_getD_lt_fanStart _ _ _ _ _ _ _ hcvN j hjb d]
    · push_neg at hjb
      set m := j - fanStart (nvx - 2).toNat (nvy - 2).toNat with hmdef
      have hj4 : m < 4 * cv.toNat := by omega
      have hdecomp : j = fanStart (nvx - 2).toNat (nvy - 2).toNat +
          (4 * (m / 4) + m % 4) := by omega
      have hidx : m / 4 < cv.toNat := by omega
      have hk4 : m % 4 < 4 := by omega
      have hks : m % 4 ≠ s := by
        intro hks
        exact hnot (m / 4) hidx (by omega)
      rw [hdecomp, quadBody_fan_getD _ _ _ _ _ _ _ hcvN _ _ hidx hk4,
        quadBody_fan_getD _ _ _ _ _ _ _ hcvN _ _ hidx hk4]
      refine fanStep_getD_congr _ _ _ _ _ _ _ _ _ hk4 ?_ ?_ ?_ ?_
      · intro hk0
        rcases hcs with ⟨rfl, rfl⟩ | ⟨rfl, rfl⟩ | ⟨rfl, rfl⟩ | ⟨rfl, rfl⟩
        · exact absurd hk0 hks
        · decide
        · decide
        · decide
      · intro hk1
        rcases hcs with ⟨rfl, rfl⟩ | ⟨rfl, rfl⟩ | ⟨rfl, rfl⟩ | ⟨rfl, rfl⟩
        · decide
        · exact absurd hk1 hks
        · decide
        · decide
      · intro hk2
        rcases hcs with ⟨rfl, rfl⟩ | ⟨rfl, rfl⟩ | ⟨rfl, rfl⟩ | ⟨rfl, rfl⟩
        · decide
        · decide
        · exact absurd hk2 hks
        · decide
      · intro hk3
        rcases hcs with ⟨rfl, rfl⟩ | ⟨rfl, rfl⟩ | ⟨rfl, rfl⟩ | ⟨rfl, rfl⟩
        · decide
        · decide
        · decide
        · exact absurd hk3 hks
  · intro i hi
    have hs4 : s < 4 := by
      rcases hcs with ⟨_, rfl⟩ | ⟨_, rfl⟩ | ⟨_, rfl⟩ | ⟨_, rfl⟩ <;> omega
    rw [hmm, quadBody_fan_getD _ _ _ _ _ _ _ hcvN i s hi hs4]
    rcases hcs with ⟨rfl, rfl⟩ | ⟨rfl, rfl⟩ | ⟨rfl, rfl⟩ | ⟨rfl, rfl⟩
    · exact fanStep_unrounded_slot sx sy (clampedRadius sx sy cr) cv.toNat _ i 0 d
        hi hr (by omega) (fun _ => by decide) (fun h => by omega) (fun h => by omega)
        (fun h => by omega)
    · exact fanStep_unrounded_slot sx sy (clampedRadius sx sy cr) cv.toNat _ i 1 d
        hi hr (by omega) (fun h => by omega) (fun _ => by decide) (fun h => by omega)
        (fun h => by omega)
    · exact fanStep_unrounded_slot sx sy (clampedRadius sx sy cr) cv.toNat _ i 2 d
        hi hr (by omega) (fun h => by omega) (fun h => by omega) (fun _ => by decide)
        (fun h => by omega)
    · exact fanStep_unrounded_slot sx sy (clampedRadius sx sy cr) cv.toNat _ i 3 d
        hi hr (by omega) (fun h => by omega) (fun h => by omega) (fun h => by omega)
        (fun _ => by decide)

/-- Witness for C4 at the spec's scenario C input: scenario B with the
top-left bit cleared. -/
theorem C4_one_corner_cleared_witness :
    ((0:ℝ) ≤ 2 ∧ (0:ℝ) ≤ 3/10 ∧ (0:ℤ) < 4 ∧ (4:ℤ) ≤ 4 ∧
      kTopLeft = kTopLeft ∧ (1:ℕ) = 1) ∧
    ((CalculateTesselatedQuadVertices 2 2 4 4 (3/10) 4 (kAll ^^^ kTopLeft)).length =
      (CalculateTesselatedQuadVertices 2 2 4 4 (3/10) 4 kAll).length ∧
    (∀ j < (CalculateTesselatedQuadVertices 2 2 4 4 (3/10) 4 (kAll ^^^ kTopLeft)).length,
      (∀ i < (4:ℤ).toNat, j ≠ fanStart 2 2 + (4 * i + 1)) →
      (CalculateTesselatedQuadVertices 2 2 4 4 (3/10) 4 (kAll ^^^ kTopLeft)).getD j
          ⟨0, 0, 0, 0, 0⟩ =
        (CalculateTesselatedQuadVertices 2 2 4 4 (3/10) 4 kAll).getD j
          ⟨0, 0, 0, 0, 0⟩) ∧
    (∀ i < (4:ℤ).toNat,
      max |((CalculateTesselatedQuadVertices 2 2 4 4 (3/10) 4 (kAll ^^^ kTopLeft)).getD
              (fanStart 2 2 + (4 * i + 1)) ⟨0, 0, 0, 0, 0⟩).px -
            (cornerAnchor 2 2 (clampedRadius 2 2 (3/10)) 1).1|
          |((CalculateTesselatedQuadVertices 2 2 4 4 (3/10) 4 (kAll ^^^ kTopLeft)).getD
              (fanStart 2 2 + (4 * i + 1)) ⟨0, 0, 0, 0, 0⟩).py -
            (cornerAnchor 2 2 (clampedRadius 2 2 (3/10)) 1).2| =
        clampedRadius 2 2 (3/10))) :=
  ⟨⟨by norm_num, by norm_num, by norm_num, by norm_num, rfl, rfl⟩,
   C4_one_corner_cleared 2 2 4 4 (3/10) 4 kTopLeft 1 ⟨0, 0, 0, 0, 0⟩
     (by norm_num) (by norm_num) (by norm_num) (by norm_num) (by norm_num)
     (by norm_num) (Or.inr (Or.inl ⟨rfl, rfl⟩))⟩

lemma fanStep_kAll (sx sy r : ℝ) (cv i : ℕ) :
    fanStep sx sy r cv kAll i =
      [fanVertex sx sy (cornerAnchor sx sy r 0)
         (texInset sx r, 1 - texInset sy r) (llOffset r cv i),
       fanVertex sx sy (cornerAnchor sx sy r 1)
         (texInset sx r, texInset sy r) (ulOffset r cv i),
       fanVertex sx sy (cornerAnchor sx sy r 2)
         (1 - texInset sx r, 1 - texInset sy r) (lrOffset r cv i),
       fanVertex sx sy (cornerAnchor sx sy r 3)
         (1 - texInset sx r, texInset sy r) (urOffset r cv i)] := by
  rw [fanStep, llOffsetMasked, if_neg (by decide), ulOffsetMasked,
    if_neg (by decide), lrOffsetMasked, if_neg (by decide), urOffsetMasked,
    if_neg (by decide)]
  rfl

/-- C5: for a validated rounded quad with all corners enabled, the fan
vertices start right after the right-edge tab column (at index
`fanStart nix niy`), interleaved per angle step in the order bottom-left,
top-left, bottom-right, top-right, at the interior-corner anchors plus the
offsets `(-r sin t, -r cos t)`, `(-r cos t, r sin t)`, `(r cos t, -r sin t)`,
`(r sin t, r cos t)` for `t = theta(i)`, `r` the clamped radius. -/
theorem C5_fan_positions (sx sy : ℝ) (nvx nvy : ℤ) (cr : ℝ) (cv : ℤ) (d : Vertex)
    (hsx : 0 ≤ sx) (hsy : 0 ≤ sy) (hcv : 0 < cv) (hx : 4 ≤ nvx) (hy : 4 ≤ nvy) :
    ∀ i < cv.toNat,
      (((CalculateTesselatedQuadVertices sx sy nvx nvy cr cv kAll).getD
          (fanStart (nvx - 2).toNat (nvy - 2).toNat + (4 * i + 0)) d).px =
            (cornerAnchor sx sy (clampedRadius sx sy cr) 0).1 +
              -(clampedRadius sx sy cr * Real.sin (theta cv.toNat i)) ∧
        ((CalculateTesselatedQuadVertices sx sy nvx nvy cr cv kAll).getD
          (fanStart (nvx - 2).toNat (nvy - 2).toNat + (4 * i + 0)) d).py =
            (cornerAnchor sx sy (clampedRadius sx sy cr) 0).2 +
              -(clampedRadius sx sy cr * Real.cos (theta cv.toNat i))) ∧
      (((CalculateTesselatedQuadVertices sx sy nvx nvy cr cv kAll).getD
          (fanStart (nvx - 2).toNat (nvy - 2).toNat + (4 * i + 1)) d).px =
            (cornerAnchor sx sy (clampedRadius sx sy cr) 1).1 +
              -(clampedRadius sx sy cr * Real.cos (theta cv.toNat i)) ∧
        ((CalculateTesselatedQuadVertices sx sy nvx nvy cr cv kAll).getD
          (fanStart (nvx - 2).toNat (nvy - 2).toNat + (4 * i + 1)) d).py =
            (cornerAnchor sx sy (clampedRadius sx sy cr) 1).2 +
              clampedRadius sx sy cr * Real.sin (theta cv.toNat i)) ∧
      (((CalculateTesselatedQuadVertices sx sy nvx nvy cr cv kAll).getD
          (fanStart (nvx - 2).toNat (nvy - 2).toNat + (4 * i + 2)) d).px =
            (cornerAnchor sx sy (clampedRadius sx sy cr) 2).1 +
              clampedRadius sx sy cr * Real.cos (theta cv.toNat i) ∧
        ((CalculateTesselatedQuadVertices sx sy nvx nvy cr cv kAll).getD
          (fanStart (nvx - 2).toNat (nvy - 2).toNat + (4 * i + 2)) d).py =
            (cornerAnchor sx sy (clampedRadius sx sy cr) 2).2 +
              -(clampedRadius sx sy cr * Real.sin (theta cv.toNat i))) ∧
      (((CalculateTesselatedQuadVertices sx sy nvx nvy cr cv kAll).getD
          (fanStart (nvx - 2).toNat (nvy - 2).toNat + (4 * i + 3)) d).px =
            (cornerAnchor sx sy (clampedRadius sx sy cr) 3).1 +
              clampedRadius sx sy cr * Real.sin (theta cv.toNat i) ∧
        ((CalculateTesselatedQuadVertices sx sy nvx nvy cr cv kAll).getD
          (fanStart (nvx - 2).toNat (nvy - 2).toNat + (4 * i + 3)) d).py =
            (cornerAnchor sx sy (clampedRadius sx sy cr) 3).2 +
              clampedRadius sx sy cr * Real.cos (theta cv.toNat i)) := by
  intro i hi
  have h0 := calc_fan_getD sx sy nvx nvy cr cv kAll hsx hsy hcv hx hy i 0 hi
    (by omega) d
  have h1 := calc_fan_getD sx sy nvx nvy cr cv kAll hsx hsy hcv hx hy i 1 hi
    (by omega) d
  have h2 := calc_fan_getD sx sy nvx nvy cr cv kAll hsx hsy hcv hx hy i 2 hi
    (by omega) d
  have h3 := calc_fan_getD sx sy nvx nvy cr cv kAll hsx hsy hcv hx hy i 3 hi
    (by omega) d
  rw [fanStep_kAll] at h0 h1 h2 h3
  simp only [List.getD_cons_zero, List.getD_cons_succ] at h0 h1 h2 h3
  rw [h0, h1, h2, h3]
  simp [fanVertex, llOffset, ulOffset, lrOffset, urOffset]

/-- Witness for C5 at the spec's scenario B input, first angle step. -/
theorem C5_fan_positions_witness :
    ((0:ℝ) ≤ 2 ∧ (0:ℤ) < 4 ∧ (4:ℤ) ≤ 4 ∧ (0:ℕ) < (4:ℤ).toNat) ∧
    ((((CalculateTesselatedQuadVertices 2 2 4 4 (3/10) 4 kAll).getD
        (fanStart 2 2 + (4 * 0 + 0)) ⟨0, 0, 0, 0, 0⟩).px =
          (cornerAnchor 2 2 (clampedRadius 2 2 (3/10)) 0).1 +
            -(clampedRadius 2 2 (3/10) * Real.sin (theta 4 0)) ∧
      ((CalculateTesselatedQuadVertices 2 2 4 4 (3/10) 4 kAll).getD
        (fanStart 2 2 + (4 * 0 + 0)) ⟨0, 0, 0, 0, 0⟩).py =
          (cornerAnchor 2 2 (clampedRadius 2 2 (3/10)) 0).2 +
            -(clampedRadius 2 2 (3/10) * Real.cos (theta 4 0))) ∧
    (((CalculateTesselatedQuadVertices 2 2 4 4 (3/10) 4 kAll).getD
        (fanStart 2 2 + (4 * 0 + 1)) ⟨0, 0, 0, 0, 0⟩).px =
          (cornerAnchor 2 2 (clampedRadius 2 2 (3/10)) 1).1 +
            -(clampedRadius 2 2 (3/10) * Real.cos (theta 4 0)) ∧
      ((CalculateTesselatedQuadVertices 2 2 4 4 (3/10) 4 kAll).getD
        (fanStart 2 2 + (4 * 0 + 1)) ⟨0, 0, 0, 0, 0⟩).py =
          (cornerAnchor 2 2 (clampedRadius 2 2 (3/10)) 1).2 +
            clampedRadius 2 2 (3/10) * Real.sin (theta 4 0)) ∧
    (((CalculateTesselatedQuadVertices 2 2 4 4 (3/10) 4 kAll).getD
        (fanStart 2 2 + (4 * 0 + 2)) ⟨0, 0, 0, 0, 0⟩).px =
          (cornerAnchor 2 2 (clampedRadius 2 2 (3/10)) 2).1 +
            clampedRadius 2 2 (3/10) * Real.cos (theta 4 0) ∧
      ((CalculateTesselatedQuadVertices 2 2 4 4 (3/10) 4 kAll).getD
        (fanStart 2 2 + (4 * 0 + 2)) ⟨0, 0, 0, 0, 0⟩).py =
          (cornerAnchor 2 2 (clampedRadius 2 2 (3/10)) 2).2 +
            -(clampedRadius 2 2 (3/10) * Real.sin (theta 4 0))) ∧
    (((CalculateTesselatedQuadVertices 2 2 4 4 (3/10) 4 kAll).getD
        (fanStart 2 2 + (4 * 0 + 3)) ⟨0, 0, 0, 0, 0⟩).px =
          (cornerAnchor 2 2 (clampedRadius 2 2 (3/10)) 3).1 +
            clampedRadius 2 2 (3/10) * Real.sin (theta 4 0) ∧
      ((CalculateTesselatedQuadVertices 2 2 4 4 (3/10) 4 kAll).getD
        (fanStart 2 2 + (4 * 0 + 3)) ⟨0, 0, 0, 0, 0⟩).py =
          (cornerAnchor 2 2 (clampedRadius 2 2 (3/10)) 3).2 +
            clampedRadius 2 2 (3/10) * Real.cos (theta 4 0))) :=
  ⟨⟨by norm_num, by norm_num, by norm_num, by norm_num⟩,
    C5_fan_positions 2 2 4 4 (3/10) 4 ⟨0, 0, 0, 0, 0⟩ (by norm_num) (by norm_num)
      (by norm_num) (by norm_num) (by norm_num) 0 (by norm_num)⟩

/-- C7: for a square validated rounded quad with all corners enabled, the four
fan vertices of each angle step are mapped onto one another by a quarter turn
about the quad center: bottom-left to bottom-right, bottom-right to top-right,
top-right to top-left, top-left to bottom-left. -/
theorem C7_square_rotational_symmetry (sx : ℝ) (nvx nvy : ℤ) (cr : ℝ) (cv : ℤ)
    (d : Vertex) (hsx : 0 ≤ sx) (hcv : 0 < cv) (hx : 4 ≤ nvx) (hy : 4 ≤ nvy) :
    ∀ i < cv.toNat,
      rotate90
          (((CalculateTesselatedQuadVertices sx sx nvx nvy cr cv kAll).getD
              (fanStart (nvx - 2).toNat (nvy - 2).toNat + (4 * i + 0)) d).px,
           ((CalculateTesselatedQuadVertices sx sx nvx nvy cr cv kAll).getD
              (fanStart (nvx - 2).toNat (nvy - 2).toNat + (4 * i + 0)) d).py) =
        (((CalculateTesselatedQuadVertices sx sx nvx nvy cr cv kAll).getD
            (fanStart (nvx - 2).toNat (nvy - 2).toNat + (4 * i + 2)) d).px,
         ((CalculateTesselatedQuadVertices sx sx nvx nvy cr cv kAll).getD
            (fanStart (nvx - 2).toNat (nvy - 2).toNat + (4 * i + 2)) d).py) ∧
      rotate90
          (((CalculateTesselatedQuadVertices sx sx nvx nvy cr cv kAll).getD
              (fanStart (nvx - 2).toNat (nvy - 2).toNat + (4 * i + 2)) d).px,
           ((CalculateTesselatedQuadVertices sx sx nvx nvy cr cv kAll).getD
              (fanStart (nvx - 2).toNat (nvy - 2).toNat + (4 * i + 2)) d).py) =
        (((CalculateTesselatedQuadVertices sx sx nvx nvy cr cv kAll).getD
            (fanStart (nvx - 2).toNat (nvy - 2).toNat + (4 * i + 3)) d).px,
         ((CalculateTesselatedQuadVertices sx sx nvx nvy cr cv kAll).getD
            (fanStart (nvx - 2).toNat (nvy - 2).toNat + (4 * i + 3)) d).py) ∧
      rotate90
          (((CalculateTesselatedQuadVertices sx sx nvx nvy cr cv kAll).getD
              (fanStart (nvx - 2).toNat (nvy - 2).toNat + (4 * i + 3)) d).px,
           ((CalculateTesselatedQuadVertices sx sx nvx nvy cr cv kAll).getD
              (fanStart (nvx - 2).toNat (nvy - 2).toNat + (4 * i + 3)) d).py) =
        (((CalculateTesselatedQuadVertices sx sx nvx nvy cr cv kAll).getD
            (fanStart (nvx - 2).toNat (nvy - 2).toNat + (4 * i + 1)) d).px,
         ((CalculateTesselatedQuadVertices sx sx nvx nvy cr cv kAll).getD
            (fanStart (nvx - 2).toNat (nvy - 2).toNat + (4 * i + 1)) d).py) ∧
      rotate90
          (((CalculateTesselatedQuadVertices sx sx nvx nvy cr cv kAll).getD
              (fanStart (nvx - 2).toNat (nvy - 2).toNat + (4 * i + 1)) d).px,
           ((CalculateTesselatedQuadVertices sx sx nvx nvy cr cv kAll).getD
              (fanStart (nvx - 2).toNat (nvy - 2).toNat + (4 * i + 1)) d).py) =
        (((CalculateTesselatedQuadVertices sx sx nvx nvy cr cv kAll).getD
            (fanStart (nvx - 2).toNat (nvy - 2).toNat + (4 * i + 0)) d).px,
         ((CalculateTesselatedQuadVertices sx sx nvx nvy cr cv kAll).getD
            (fanStart (nvx - 2).toNat (nvy - 2).toNat + (4 * i + 0)) d).py) := by
  intro i hi
  have h0 := calc_fan_getD sx sx nvx nvy cr cv kAll hsx hsx hcv hx hy i 0 hi
    (by omega) d
  have h1 := calc_fan_getD sx sx nvx nvy cr cv kAll hsx hsx hcv hx hy i 1 hi
    (by omega) d
  have h2 := calc_fan_getD sx sx nvx nvy cr cv kAll hsx hsx hcv hx hy i 2 hi
    (by omega) d
  have h3 := calc_fan_getD sx sx nvx nvy cr cv kAll hsx hsx hcv hx hy i 3 hi
    (by omega) d
  rw [fanStep_kAll] at h0 h1 h2 h3
  simp only [List.getD_cons_zero, List.getD_cons_succ] at h0 h1 h2 h3
  rw [h0, h1, h2, h3]
  simp only [fanVertex, cornerAnchor, llOffset, ulOffset, lrOffset, urOffset,
    rotate90, Prod.mk.injEq]
  refine ⟨⟨by ring_nf, by ring_nf⟩, ⟨by ring_nf, by ring_nf⟩,
    ⟨by ring_nf, by ring_nf⟩, ⟨by ring_nf, by ring_nf⟩⟩

/-- Witness for C7 at a concrete square input, first angle step. -/
theorem C7_square_rotational_symmetry_witness :
    ((0:ℝ) ≤ 2 ∧ (0:ℤ) < 4 ∧ (4:ℤ) ≤ 4 ∧ (0:ℕ) < (4:ℤ).toNat) ∧
    (rotate90
        (((CalculateTesselatedQuadVertices 2 2 4 4 (3/10) 4 kAll).getD
            (fanStart 2 2 + (4 * 0 + 0)) ⟨0, 0, 0, 0, 0⟩).px,
         ((CalculateTesselatedQuadVertices 2 2 4 4 (3/10) 4 kAll).getD
            (fanStart 2 2 + (4 * 0 + 0)) ⟨0, 0, 0, 0, 0⟩).py) =
      (((CalculateTesselatedQuadVertices 2 2 4 4 (3/10) 4 kAll).getD
          (fanStart 2 2 + (4 * 0 + 2)) ⟨0, 0, 0, 0, 0⟩).px,
       ((CalculateTesselatedQuadVertices 2 2 4 4 (3/10) 4 kAll).getD
          (fanStart 2 2 + (4 * 0 + 2)) ⟨0, 0, 0, 0, 0⟩).py) ∧
    rotate90
        (((CalculateTesselatedQuadVertices 2 2 4 4 (3/10) 4 kAll).getD
            (fanStart 2 2 + (4 * 0 + 2)) ⟨0, 0, 0, 0, 0⟩).px,
         ((CalculateTesselatedQuadVertices 2 2 4 4 (3/10) 4 kAll).getD
            (fanStart 2 2 + (4 * 0 + 2)) ⟨0, 0, 0, 0, 0⟩).py) =
      (((CalculateTesselatedQuadVertices 2 2 4 4 (3/10) 4 kAll).getD
          (fanStart 2 2 + (4 * 0 + 3)) ⟨0, 0, 0, 0, 0⟩).px,
       ((CalculateTesselatedQuadVertices 2 2 4 4 (3/10) 4 kAll).getD
          (fanStart 2 2 + (4 * 0 + 3)) ⟨0, 0, 0, 0, 0⟩).py) ∧
    rotate90
        (((CalculateTesselatedQuadVertices 2 2 4 4 (3/10) 4 kAll).getD
            (fanStart 2 2 + (4 * 0 + 3)) ⟨0, 0, 0, 0, 0⟩).px,
         ((CalculateTesselatedQuadVertices 2 2 4 4 (3/10) 4 kAll).getD
            (fanStart 2 2 + (4 * 0 + 3)) ⟨0, 0, 0, 0, 0⟩).py) =
      (((CalculateTesselatedQuadVertices 2 2 4 4 (3/10) 4 kAll).getD
          (fanStart 2 2 + (4 * 0 + 1)) ⟨0, 0, 0, 0, 0⟩).px,
       ((CalculateTesselatedQuadVertices 2 2 4 4 (3/10) 4 kAll).getD
          (fanStart 2 2 + (4 * 0 + 1)) ⟨0, 0, 0, 0, 0⟩).py) ∧
    rotate90
        (((CalculateTesselatedQuadVertices 2 2 4 4 (3/10) 4 kAll).getD
            (fanStart 2 2 + (4 * 0 + 1)) ⟨0, 0, 0, 0, 0⟩).px,
         ((CalculateTesselatedQuadVertices 2 2 4 4 (3/10) 4 kAll).getD
            (fanStart 2 2 + (4 * 0 + 1)) ⟨0, 0, 0, 0, 0⟩).py) =
      (((CalculateTesselatedQuadVertices 2 2 4 4 (3/10) 4 kAll).getD
          (fanStart 2 2 + (4 * 0 + 0)) ⟨0, 0, 0, 0, 0⟩).px,
       ((CalculateTesselatedQuadVertices 2 2 4 4 (3/10) 4 kAll).getD
          (fanStart 2 2 + (4 * 0 + 0)) ⟨0, 0, 0, 0, 0⟩).py)) :=
  ⟨⟨by norm_num, by norm_num, by norm_num, by norm_num⟩,
    C7_square_rotational_symmetry 2 4 4 (3/10) 4 ⟨0, 0, 0, 0, 0⟩ (by norm_num)
      (by norm_num) (by norm_num) (by norm_num) 0 (by norm_num)⟩

/-! ### Texture-coordinate bounds -/

lemma texInset_bounds (size r : ℝ) (hs : 0 < size) (hr : 0 ≤ r)
    (hr2 : r ≤ size / 2) : 0 ≤ texInset size r ∧ texInset size r ≤ 1 / 2 := by
  constructor
  · exact div_nonneg hr (le_of_lt hs)
  · rw [texInset, div_le_iff₀ hs]
    linarith

lemma gridFraction_bounds (n k : ℕ) (hn : 2 ≤ n) (hk : k < n) :
    0 ≤ gridFraction n k ∧ gridFraction n k ≤ 1 := by
  have hd : (0:ℝ) < (n:ℝ) - 1 := by
    have : (2:ℝ) ≤ (n:ℝ) := by exact_mod_cast hn
    linarith
  constructor
  · exact div_nonneg (Nat.cast_nonneg k) (le_of_lt hd)
  · rw [gridFraction, div_le_one hd]
    have : (k:ℝ) + 1 ≤ (n:ℝ) := by exact_mod_cast hk
    linarith

lemma uCoord_bounds (size r : ℝ) (n k : ℕ) (hs : 0 < size) (hr : 0 ≤ r)
    (hr2 : r ≤ size / 2) (hn : 2 ≤ n) (hk : k < n) :
    0 ≤ uCoord size r n k ∧ uCoord size r n k ≤ 1 := by
  obtain ⟨hi0, hi2⟩ := texInset_bounds size r hs hr hr2
  obtain ⟨hf0, hf1⟩ := gridFraction_bounds n k hn hk
  rw [uCoord, texRange]
  constructor
  · nlinarith
  · nlinarith

lemma vCoord_bounds (size r : ℝ) (n k : ℕ) (hs : 0 < size) (hr : 0 ≤ r)
    (hr2 : r ≤ size / 2) (hn : 2 ≤ n) (hk : k < n) :
    0 ≤ vCoord size r n k ∧ vCoord size r n k ≤ 1 := by
  obtain ⟨hi0, hi2⟩ := texInset_bounds size r hs hr hr2
  obtain ⟨hf0, hf1⟩ := gridFraction_bounds n k hn hk
  rw [vCoord, texRange]
  constructor
  · nlinarith
  · nlinarith

lemma raw_offset_abs_le (r t : ℝ) (hr : 0 ≤ r) :
    |r * Real.sin t| ≤ r ∧ |r * Real.cos t| ≤ r := by
  constructor
  · rw [abs_mul, abs_of_nonneg hr]
    calc r * |Real.sin t| ≤ r * 1 :=
          mul_le_mul_of_nonneg_left
            (abs_le.mpr ⟨Real.neg_one_le_sin t, Real.sin_le_one t⟩) hr
      _ = r := mul_one r
  · rw [abs_mul, abs_of_nonneg hr]
    calc r * |Real.cos t| ≤ r * 1 :=
          mul_le_mul_of_nonneg_left
            (abs_le.mpr ⟨Real.neg_one_le_cos t, Real.cos_le_one t⟩) hr
      _ = r := mul_one r

lemma llOffsetMasked_abs_le (r : ℝ) (cv i mask : ℕ) (hr : 0 ≤ r) :
    |(llOffsetMasked r cv i mask).1| ≤ r ∧ |(llOffsetMasked r cv i mask).2| ≤ r := by
  rw [llOffsetMasked]
  split_ifs with h
  · exact unround_abs_le r _ hr
  · rw [llOffset]
    exact ⟨by simpa using (raw_offset_abs_le r (theta cv i) hr).1,
      by simpa using (raw_offset_abs_le r (theta cv i) hr).2⟩

lemma ulOffsetMasked_abs_le (r : ℝ) (cv i mask : ℕ) (hr : 0 ≤ r) :
    |(ulOffsetMasked r cv i mask).1| ≤ r ∧ |(ulOffsetMasked r cv i mask).2| ≤ r := by
  rw [ulOffsetMasked]
  split_ifs with h
  · exact unround_abs_le r _ hr
  · rw [ulOffset]
    exact ⟨by simpa using (raw_offset_abs_le r (theta cv i) hr).2,
      by simpa using (raw_offset_abs_le r (theta cv i) hr).1⟩

lemma lrOffsetMasked_abs_le (r : ℝ) (cv i mask : ℕ) (hr : 0 ≤ r) :
    |(lrOffsetMasked r cv i mask).1| ≤ r ∧ |(lrOffsetMasked r cv i mask).2| ≤ r := by
  rw [lrOffsetMasked]
  split_ifs with h
  · exact unround_abs_le r _ hr
  · rw [lrOffset]
    exact ⟨by simpa using (raw_offset_abs_le r (theta cv i) hr).2,
      by simpa using (raw_offset_abs_le r (theta cv i) hr).1⟩

lemma urOffsetMasked_abs_le (r : ℝ) (cv i mask : ℕ) (hr : 0 ≤ r) :
    |(urOffsetMasked r cv i mask).1| ≤ r ∧ |(urOffsetMasked r cv i mask).2| ≤ r := by
  rw [urOffsetMasked]
  split_ifs with h
  · exact unround_abs_le r _ hr
  · rw [urOffset]
    exact ⟨by simpa using (raw_offset_abs_le r (theta cv i) hr).1,
      by simpa using (raw_offset_abs_le r (theta cv i) hr).2⟩

lemma fan_uv_bound (a inset t : ℝ) (ha : a = inset ∨ a = 1 - inset)
    (hi0 : 0 ≤ inset) (hi2 : inset ≤ 1 / 2) (ht : |t| ≤ inset) :
    0 ≤ a + t ∧ a + t ≤ 1 := by
  rcases abs_le.mp ht with ⟨h1, h2⟩
  rcases ha with rfl | rfl <;> constructor <;> linarith

lemma fanVertex_uv_bounds (sx sy r : ℝ) (aXY : ℝ × ℝ) (au av : ℝ) (off : ℝ × ℝ)
    (hsx : 0 < sx) (hsy : 0 < sy)
    (hau : au = texInset sx r ∨ au = 1 - texInset sx r)
    (hav : av = texInset sy r ∨ av = 1 - texInset sy r)
    (hiu0 : 0 ≤ texInset sx r) (hiu2 : texInset sx r ≤ 1 / 2)
    (hiv0 : 0 ≤ texInset sy r) (hiv2 : texInset sy r ≤ 1 / 2)
    (ho1 : |off.1| ≤ r) (ho2 : |off.2| ≤ r) :
    0 ≤ (fanVertex sx sy aXY (au, av) off).u ∧
    (fanVertex sx sy aXY (au, av) off).u ≤ 1 ∧
    0 ≤ (fanVertex sx sy aXY (au, av) off).v ∧
    (fanVertex sx sy aXY (au, av) off).v ≤ 1 := by
  have htu : |off.1 * (1 / sx)| ≤ texInset sx r := by
    rw [abs_mul, abs_of_nonneg (by positivity : (0:ℝ) ≤ 1 / sx), texInset]
    calc |off.1| * (1 / sx) ≤ r * (1 / sx) :=
          mul_le_mul_of_nonneg_right ho1 (by positivity)
      _ = r / sx := by ring
  have htv : |off.2 * (-(1 / sy))| ≤ texInset sy r := by
    rw [abs_mul, abs_neg, abs_of_nonneg (by positivity : (0:ℝ) ≤ 1 / sy), texInset]
    calc |off.2| * (1 / sy) ≤ r * (1 / sy) :=
          mul_le_mul_of_nonneg_right ho2 (by positivity)
      _ = r / sy := by ring
  obtain ⟨hu0, hu1⟩ := fan_uv_bound au (texInset sx r) _ hau hiu0 hiu2 htu
  obtain ⟨hv0, hv1⟩ := fan_uv_bound av (texInset sy r) _ hav hiv0 hiv2 htv
  exact ⟨hu0, hu1, hv0, hv1⟩

lemma quadBody_uv_bounds (sx sy : ℝ) (nix niy : ℕ) (r : ℝ) (cv mask : ℕ)
    (hsx : 0 < sx) (hsy : 0 < sy) (hr : 0 ≤ r) (hrx : r ≤ sx / 2)
    (hry : r ≤ sy / 2) (hnix : 2 ≤ nix) (hniy : 2 ≤ niy) :
    ∀ w ∈ quadBody sx sy nix niy r cv mask,
      0 ≤ w.u ∧ w.u ≤ 1 ∧ 0 ≤ w.v ∧ w.v ≤ 1 := by
  obtain ⟨hiu0, hiu2⟩ := texInset_bounds sx r hsx hr hrx
  obtain ⟨hiv0, hiv2⟩ := texInset_bounds sy r hsy hr hry
  intro w hw
  rw [quadBody] at hw
  simp only [List.mem_append] at hw
  rcases hw with (hw | hw) | hw
  · -- left tab (or nothing)
    split_ifs at hw
    · simp only [leftTab, List.mem_map, List.mem_range] at hw
      obtain ⟨y, hy, rfl⟩ := hw
      obtain ⟨hv0, hv1⟩ := vCoord_bounds sy r niy y hsy hr hry hniy hy
      exact ⟨le_refl 0, by norm_num, hv0, hv1⟩
    · simp at hw
  · -- interior columns
    simp only [List.mem_flatMap, List.mem_range] at hw
    obtain ⟨x, hx, hw⟩ := hw
    rw [interiorColumn] at hw
    simp only [List.mem_append] at hw
    obtain ⟨hu0, hu1⟩ := uCoord_bounds sx r nix x hsx hr hrx hnix hx
    rcases hw with (hw | hw) | hw
    · split_ifs at hw
      · simp only [List.mem_singleton] at hw
        subst hw
        exact ⟨hu0, hu1, by norm_num, le_refl 1⟩
      · simp at hw
    · simp only [List.mem_map, List.mem_range] at hw
      obtain ⟨y, hy, rfl⟩ := hw
      obtain ⟨hv0, hv1⟩ := vCoord_bounds sy r niy y hsy hr hry hniy hy
      exact ⟨hu0, hu1, hv0, hv1⟩
    · split_ifs at hw
      · simp only [List.mem_singleton] at hw
        subst hw
        exact ⟨hu0, hu1, le_refl 0, by norm_num⟩
      · simp at hw
  · -- right tab and fans
    split_ifs at hw
    · simp only [List.mem_append] at hw
      rcases hw with hw | hw
      · simp only [rightTab, List.mem_map, List.mem_range] at hw
        obtain ⟨y, hy, rfl⟩ := hw
        obtain ⟨hv0, hv1⟩ := vCoord_bounds sy r niy y hsy hr hry hniy hy
        exact ⟨by norm_num, le_refl 1, hv0, hv1⟩
      · simp only [List.mem_flatMap, List.mem_range] at hw
        obtain ⟨i, hi, hw⟩ := hw
        rw [fanStep] at hw
        simp only [List.mem_cons, List.not_mem_nil, or_false] at hw
        rcases hw with rfl | rfl | rfl | rfl
        · exact fanVertex_uv_bounds sx sy r _ _ _ _ hsx hsy (Or.inl rfl)
            (Or.inr rfl) hiu0 hiu2 hiv0 hiv2
            (llOffsetMasked_abs_le r cv i mask hr).1
            (llOffsetMasked_abs_le r cv i mask hr).2
        · exact fanVertex_uv_bounds sx sy r _ _ _ _ hsx hsy (Or.inl rfl)
            (Or.inl rfl) hiu0 hiu2 hiv0 hiv2
            (ulOffsetMasked_abs_le r cv i mask hr).1
            (ulOffsetMasked_abs_le r cv i mask hr).2
        · exact fanVertex_uv_bounds sx sy r _ _ _ _ hsx hsy (Or.inr rfl)
            (Or.inr rfl) hiu0 hiu2 hiv0 hiv2
            (lrOffsetMasked_abs_le r cv i mask hr).1
            (lrOffsetMasked_abs_le r cv i mask hr).2
        · exact fanVertex_uv_bounds sx sy r _ _ _ _ hsx hsy (Or.inr rfl)
            (Or.inl rfl) hiu0 hiu2 hiv0 hiv2
            (urOffsetMasked_abs_le r cv i mask hr).1
            (urOffsetMasked_abs_le r cv i mask hr).2
    · simp at hw

lemma clampedRadius_le_half_x (sx sy cr : ℝ) :
    clampedRadius sx sy cr ≤ sx / 2 :=
  le_trans (min_le_right _ _) (by linarith [min_le_left sx sy])

lemma clampedRadius_le_half_y (sx sy cr : ℝ) :
    clampedRadius sx sy cr ≤ sy / 2 :=
  le_trans (min_le_right _ _) (by linarith [min_le_right sx sy])

/-- C6: for a validated quad with positive sizes and nonnegative requested
radius, every texture coordinate written — interior grid, tabs, and corner
fans, for any corner mask — lies in the unit square. -/
theorem C6_uv_in_unit_square (sx sy : ℝ) (nvx nvy : ℤ) (cr : ℝ) (cv : ℤ)
    (mask : ℕ) (hsx : 0 < sx) (hsy : 0 < sy) (hcr : 0 ≤ cr)
    (hvalid : (0 < cv ∧ 4 ≤ nvx ∧ 4 ≤ nvy) ∨ (cv = 0 ∧ 2 ≤ nvx ∧ 2 ≤ nvy)) :
    ∀ w ∈ CalculateTesselatedQuadVertices sx sy nvx nvy cr cv mask,
      0 ≤ w.u ∧ w.u ≤ 1 ∧ 0 ≤ w.v ∧ w.v ≤ 1 := by
  have hr : 0 ≤ clampedRadius sx sy cr :=
    clampedRadius_nonneg sx sy cr (le_of_lt hsx) (le_of_lt hsy) hcr
  rcases hvalid with ⟨hcv, hx, hy⟩ | ⟨rfl, hx, hy⟩
  · rw [calc_valid_pos sx sy nvx nvy cr cv mask (le_of_lt hsx) (le_of_lt hsy)
      hcv hx hy]
    exact quadBody_uv_bounds sx sy (nvx - 2).toNat (nvy - 2).toNat
      (clampedRadius sx sy cr) cv.toNat mask hsx hsy hr
      (clampedRadius_le_half_x sx sy cr) (clampedRadius_le_half_y sx sy cr)
      (by omega) (by omega)
  · rw [calc_valid_zero sx sy nvx nvy cr mask (le_of_lt hsx) (le_of_lt hsy) hx hy]
    exact quadBody_uv_bounds sx sy nvx.toNat nvy.toNat
      (clampedRadius sx sy cr) 0 mask hsx hsy hr
      (clampedRadius_le_half_x sx sy cr) (clampedRadius_le_half_y sx sy cr)
      (by omega) (by omega)

/-- Witness for C6 at the spec's scenario B input. -/
theorem C6_uv_in_unit_square_witness :
    ((0:ℝ) < 2 ∧ (0:ℝ) ≤ 3/10 ∧ (0:ℤ) < 4 ∧ (4:ℤ) ≤ 4) ∧
    (∀ w ∈ CalculateTesselatedQuadVertices 2 2 4 4 (3/10) 4 kAll,
      0 ≤ w.u ∧ w.u ≤ 1 ∧ 0 ≤ w.v ∧ w.v ≤ 1) :=
  ⟨⟨by norm_num, by norm_num, by norm_num, by norm_num⟩,
    C6_uv_in_unit_square 2 2 4 4 (3/10) 4 kAll (by norm_num) (by norm_num)
      (by norm_num) (Or.inl ⟨by norm_num, by norm_num, by norm_num⟩)⟩

/-! ### Position bounds of the interior grid -/

lemma interiorCoord_bounds (size r : ℝ) (n k : ℕ) (hin : 0 ≤ interiorSize size r)
    (hn : 2 ≤ n) (hk : k < n) :
    -(interiorSize size r / 2) ≤ interiorCoord size r n k ∧
    interiorCoord size r n k ≤ interiorSize size r / 2 := by
  obtain ⟨hf0, hf1⟩ := gridFraction_bounds n k hn hk
  rw [interiorCoord]
  constructor <;> nlinarith

lemma gridFraction_last (n : ℕ) (hn : 2 ≤ n) : gridFraction n (n - 1) = 1 := by
  rw [gridFraction]
  have h1 : ((n - 1 : ℕ) : ℝ) = (n : ℝ) - 1 := by
    rw [Nat.cast_sub (by omega : 1 ≤ n), Nat.cast_one]
  rw [h1]
  have hd : (n : ℝ) - 1 ≠ 0 := by
    have : (2:ℝ) ≤ (n:ℝ) := by exact_mod_cast hn
    linarith
  exact div_self hd

lemma interiorCoord_last (size r : ℝ) (n : ℕ) (hn : 2 ≤ n) :
    interiorCoord size r n (n - 1) = interiorSize size r / 2 := by
  rw [interiorCoord, gridFraction_last n hn]
  ring

lemma gridFraction_zero (n : ℕ) : gridFraction n 0 = 0 := by
  rw [gridFraction, Nat.cast_zero, zero_div]

lemma vCoord_zero (size r : ℝ) (n : ℕ) : vCoord size r n 0 = 1 - texInset size r := by
  rw [vCoord, gridFraction_zero, texRange]
  ring

lemma interiorSize_nonneg_x (sx sy cr : ℝ) :
    0 ≤ interiorSize sx (clampedRadius sx sy cr) := by
  have := clampedRadius_le_half_x sx sy cr
  rw [interiorSize]
  linarith

lemma interiorSize_nonneg_y (sx sy cr : ℝ) :
    0 ≤ interiorSize sy (clampedRadius sx sy cr) := by
  have := clampedRadius_le_half_y sx sy cr
  rw [interiorSize]
  linarith

/-- C8: when `corner_verts = 0` but `corner_radius > 0`, the combination is not
rejected: the full `num_verts_x * num_verts_y` grid is produced, but its
positions cover only the interior rectangle shrunk by the clamped radius, the
shrunk corner being attained. -/
theorem C8_zero_fans_shrunk_grid (sx sy : ℝ) (nvx nvy : ℤ) (cr : ℝ) (mask : ℕ)
    (hsx : 0 ≤ sx) (hsy : 0 ≤ sy) (hcr : 0 < cr) (hx : 2 ≤ nvx) (hy : 2 ≤ nvy) :
    ((CalculateTesselatedQuadVertices sx sy nvx nvy cr 0 mask).length : ℤ) =
        nvx * nvy ∧
    CalculateTesselatedQuadVertices sx sy nvx nvy cr 0 mask ≠ [] ∧
    (∀ w ∈ CalculateTesselatedQuadVertices sx sy nvx nvy cr 0 mask,
      -(interiorSize sx (clampedRadius sx sy cr) / 2) ≤ w.px ∧
      w.px ≤ interiorSize sx (clampedRadius sx sy cr) / 2 ∧
      -(interiorSize sy (clampedRadius sx sy cr) / 2) ≤ w.py ∧
      w.py ≤ interiorSize sy (clampedRadius sx sy cr) / 2) ∧
    (∃ w ∈ CalculateTesselatedQuadVertices sx sy nvx nvy cr 0 mask,
      w.px = interiorSize sx (clampedRadius sx sy cr) / 2 ∧
      w.py = interiorSize sy (clampedRadius sx sy cr) / 2) := by
  have hbody := calc_valid_zero sx sy nvx nvy cr mask hsx hsy hx hy
  have hnx : 2 ≤ nvx.toNat := by omega
  have hny : 2 ≤ nvy.toNat := by omega
  refine ⟨?_, ?_, ?_, ?_⟩
  · rw [hbody, length_quadBody]
    simp only [lt_irrefl, if_false]
    push_cast [Int.toNat_of_nonneg (by omega : (0:ℤ) ≤ nvx),
      Int.toNat_of_nonneg (by omega : (0:ℤ) ≤ nvy)]
    ring
  · apply List.ne_nil_of_length_pos
    rw [hbody, length_quadBody]
    simp only [lt_irrefl, if_false, Nat.add_zero, Nat.zero_add]
    exact Nat.mul_pos (by omega) (by omega)
  · intro w hw
    rw [hbody] at hw
    simp only [quadBody, lt_self_iff_false, if_false, List.nil_append,
      List.append_nil, List.mem_flatMap, List.mem_range] at hw
    obtain ⟨x, hxx, hw⟩ := hw
    simp only [interiorColumn, lt_self_iff_false, if_false, List.nil_append,
      List.append_nil, List.mem_map, List.mem_range] at hw
    obtain ⟨y, hyy, rfl⟩ := hw
    obtain ⟨ha, hb⟩ := interiorCoord_bounds sx (clampedRadius sx sy cr)
      nvx.toNat x (interiorSize_nonneg_x sx sy cr) hnx hxx
    obtain ⟨hc, hd⟩ := interiorCoord_bounds sy (clampedRadius sx sy cr)
      nvy.toNat y (interiorSize_nonneg_y sx sy cr) hny hyy
    exact ⟨ha, hb, hc, hd⟩
  · rw [hbody]
    refine ⟨{ px := interiorCoord sx (clampedRadius sx sy cr) nvx.toNat
                (nvx.toNat - 1),
              py := interiorCoord sy (clampedRadius sx sy cr) nvy.toNat
                (nvy.toNat - 1),
              pz := 0,
              u := uCoord sx (clampedRadius sx sy cr) nvx.toNat (nvx.toNat - 1),
              v := vCoord sy (clampedRadius sx sy cr) nvy.toNat (nvy.toNat - 1) },
      ?_, ?_, ?_⟩
    · simp only [quadBody, lt_self_iff_false, if_false, List.nil_append,
        List.append_nil, List.mem_flatMap, List.mem_range]
      refine ⟨nvx.toNat - 1, by omega, ?_⟩
      simp only [interiorColumn, lt_self_iff_false, if_false, List.nil_append,
        List.append_nil, List.mem_map, List.mem_range]
      exact ⟨nvy.toNat - 1, by omega, rfl⟩
    · exact interiorCoord_last sx (clampedRadius sx sy cr) nvx.toNat hnx
    · exact interiorCoord_last sy (clampedRadius sx sy cr) nvy.toNat hny

/-- Witness for C8: a 2×2 quad with radius 1/2 and no corner vertices. -/
theorem C8_zero_fans_shrunk_grid_witness :
    ((0:ℝ) ≤ 2 ∧ (0:ℝ) < 1/2 ∧ (2:ℤ) ≤ 4) ∧
    (((CalculateTesselatedQuadVertices 2 2 4 4 (1/2) 0 kAll).length : ℤ) =
        4 * 4 ∧
    CalculateTesselatedQuadVertices 2 2 4 4 (1/2) 0 kAll ≠ [] ∧
    (∀ w ∈ CalculateTesselatedQuadVertices 2 2 4 4 (1/2) 0 kAll,
      -(interiorSize 2 (clampedRadius 2 2 (1/2)) / 2) ≤ w.px ∧
      w.px ≤ interiorSize 2 (clampedRadius 2 2 (1/2)) / 2 ∧
      -(interiorSize 2 (clampedRadius 2 2 (1/2)) / 2) ≤ w.py ∧
      w.py ≤ interiorSize 2 (clampedRadius 2 2 (1/2)) / 2) ∧
    (∃ w ∈ CalculateTesselatedQuadVertices 2 2 4 4 (1/2) 0 kAll,
      w.px = interiorSize 2 (clampedRadius 2 2 (1/2)) / 2 ∧
      w.py = interiorSize 2 (clampedRadius 2 2 (1/2)) / 2)) :=
  ⟨⟨by norm_num, by norm_num, by norm_num⟩,
    C8_zero_fans_shrunk_grid 2 2 4 4 (1/2) kAll (by norm_num) (by norm_num)
      (by norm_num) (by norm_num) (by norm_num)⟩

/-- C9: a negative requested radius passes validation unchanged (the clamp
only caps from above), enlarging the interior extents to `size + 2*|r|` and
driving the texture insets negative — with a texture coordinate above 1
actually emitted. -/
theorem C9_negative_radius_used (sx sy : ℝ) (nvx nvy : ℤ) (cr : ℝ) (cv : ℤ)
    (mask : ℕ) (hsx : 0 ≤ sx) (hsy : 0 ≤ sy) (hcr : cr < 0)
    (hvalid : (0 < cv ∧ 4 ≤ nvx ∧ 4 ≤ nvy) ∨ (cv = 0 ∧ 2 ≤ nvx ∧ 2 ≤ nvy)) :
    CalculateTesselatedQuadVertices sx sy nvx nvy cr cv mask ≠ [] ∧
    clampedRadius sx sy cr = cr ∧
    interiorSize sx cr = sx + 2 * |cr| ∧
    interiorSize sy cr = sy + 2 * |cr| ∧
    (0 < sx → texInset sx cr < 0) ∧
    (0 < sy → texInset sy cr < 0) ∧
    (0 < sy → ∃ w ∈ CalculateTesselatedQuadVertices sx sy nvx nvy cr cv mask,
      1 < w.v) := by
  have hclamp : clampedRadius sx sy cr = cr :=
    min_eq_left (by
      have : 0 ≤ min sx sy / 2 := div_nonneg (le_min hsx hsy) (by norm_num)
      linarith)
  have habs : |cr| = -cr := abs_of_neg hcr
  refine ⟨?_, hclamp, by rw [interiorSize, habs]; ring,
    by rw [interiorSize, habs]; ring,
    fun hpx => div_neg_of_neg_of_pos hcr hpx,
    fun hpy => div_neg_of_neg_of_pos hcr hpy, ?_⟩
  · rcases hvalid with ⟨hcv, hx, hy⟩ | ⟨rfl, hx, hy⟩
    · apply List.ne_nil_of_length_pos
      rw [calc_valid_pos sx sy nvx nvy cr cv mask hsx hsy hcv hx hy,
        length_quadBody]
      have h1 : 0 < cv.toNat := by omega
      have h2 : 0 < (nvy - 2).toNat := by omega
      simp only [h1, if_pos]
      exact Nat.add_pos_left (Nat.add_pos_left h2 _) _
    · apply List.ne_nil_of_length_pos
      rw [calc_valid_zero sx sy nvx nvy cr mask hsx hsy hx hy, length_quadBody]
      simp only [lt_irrefl, if_false, Nat.add_zero, Nat.zero_add]
      exact Nat.mul_pos (by omega) (by omega)
  · intro hpy
    have hv : ∀ n : ℕ, 1 < vCoord sy (clampedRadius sx sy cr) n 0 := by
      intro n
      rw [vCoord_zero, hclamp]
      have := div_neg_of_neg_of_pos hcr hpy
      rw [texInset] at *
      linarith
    rcases hvalid with ⟨hcv, hx, hy⟩ | ⟨rfl, hx, hy⟩
    · rw [calc_valid_pos sx sy nvx nvy cr cv mask hsx hsy hcv hx hy]
      have hcvN : 0 < cv.toNat := by omega
      refine ⟨{ px := -(sx / 2),
                py := interiorCoord sy (clampedRadius sx sy cr) (nvy - 2).toNat 0,
                pz := 0, u := 0,
                v := vCoord sy (clampedRadius sx sy cr) (nvy - 2).toNat 0 },
        ?_, hv _⟩
      simp only [quadBody, hcvN, if_pos, List.mem_append, leftTab, List.mem_map,
        List.mem_range]
      exact Or.inl (Or.inl ⟨0, by omega, rfl⟩)
    · rw [calc_valid_zero sx sy nvx nvy cr mask hsx hsy hx hy]
      refine ⟨{ px := interiorCoord sx (clampedRadius sx sy cr) nvx.toNat 0,
                py := interiorCoord sy (clampedRadius sx sy cr) nvy.toNat 0,
                pz := 0,
                u := uCoord sx (clampedRadius sx sy cr) nvx.toNat 0,
                v := vCoord sy (clampedRadius sx sy cr) nvy.toNat 0 },
        ?_, hv _⟩
      simp only [quadBody, lt_self_iff_false, if_false, List.nil_append,
        List.append_nil, List.mem_flatMap, List.mem_range]
      refine ⟨0, by omega, ?_⟩
      simp only [interiorColumn, lt_self_iff_false, if_false, List.nil_append,
        List.append_nil, List.mem_map, List.mem_range]
      exact ⟨0, by omega, rfl⟩

/-- Witness for C9: a 2×2 quad with radius -1 and no corner vertices. -/
theorem C9_negative_radius_used_witness :
    ((0:ℝ) ≤ 2 ∧ (-1:ℝ) < 0 ∧ (2:ℤ) ≤ 2) ∧
    (CalculateTesselatedQuadVertices 2 2 2 2 (-1) 0 kAll ≠ [] ∧
    clampedRadius 2 2 (-1) = -1 ∧
    interiorSize 2 (-1) = 2 + 2 * |(-1 : ℝ)| ∧
    interiorSize 2 (-1) = 2 + 2 * |(-1 : ℝ)| ∧
    ((0:ℝ) < 2 → texInset 2 (-1) < 0) ∧
    ((0:ℝ) < 2 → texInset 2 (-1) < 0) ∧
    ((0:ℝ) < 2 → ∃ w ∈ CalculateTesselatedQuadVertices 2 2 2 2 (-1) 0 kAll,
      1 < w.v)) :=
  ⟨⟨by norm_num, by norm_num, by norm_num⟩,
    C9_negative_radius_used 2 2 2 2 (-1) 0 kAll (by norm_num) (by norm_num)
      (by norm_num) (Or.inr ⟨rfl, by norm_num, by norm_num⟩)⟩

/-- C10: for accepted parameters the grid-fraction denominators
`num_interior_verts - 1` are positive, and whenever the clamped radius is
positive the divisor `max(|offset.x|, |offset.y|)` of `unround_corner` is
positive at every fan angle step, for all four corner offsets. -/
theorem C10_divisors_nonzero (sx sy : ℝ) (nvx nvy : ℤ) (cr : ℝ) (cv : ℤ)
    (hvalid : (0 < cv ∧ 4 ≤ nvx ∧ 4 ≤ nvy) ∨ (cv = 0 ∧ 2 ≤ nvx ∧ 2 ≤ nvy)) :
    (0 < cv → 0 < (((nvx - 2).toNat : ℕ) : ℝ) - 1 ∧
      0 < (((nvy - 2).toNat : ℕ) : ℝ) - 1) ∧
    (cv = 0 → 0 < ((nvx.toNat : ℕ) : ℝ) - 1 ∧ 0 < ((nvy.toNat : ℕ) : ℝ) - 1) ∧
    (0 < clampedRadius sx sy cr → ∀ i < cv.toNat,
      0 < max |(llOffset (clampedRadius sx sy cr) cv.toNat i).1|
            |(llOffset (clampedRadius sx sy cr) cv.toNat i).2| ∧
      0 < max |(ulOffset (clampedRadius sx sy cr) cv.toNat i).1|
            |(ulOffset (clampedRadius sx sy cr) cv.toNat i).2| ∧
      0 < max |(lrOffset (clampedRadius sx sy cr) cv.toNat i).1|
            |(lrOffset (clampedRadius sx sy cr) cv.toNat i).2| ∧
      0 < max |(urOffset (clampedRadius sx sy cr) cv.toNat i).1|
            |(urOffset (clampedRadius sx sy cr) cv.toNat i).2|) := by
  refine ⟨?_, ?_, ?_⟩
  · intro hcv
    rcases hvalid with ⟨_, hx, hy⟩ | ⟨h0, _, _⟩
    · constructor
      · have h2 : (2:ℕ) ≤ (nvx - 2).toNat := by omega
        have : (2:ℝ) ≤ (((nvx - 2).toNat : ℕ) : ℝ) := by exact_mod_cast h2
        linarith
      · have h2 : (2:ℕ) ≤ (nvy - 2).toNat := by omega
        have : (2:ℝ) ≤ (((nvy - 2).toNat : ℕ) : ℝ) := by exact_mod_cast h2
        linarith
    · omega
  · intro h0
    rcases hvalid with ⟨hcv, _, _⟩ | ⟨_, hx, hy⟩
    · omega
    · constructor
      · have h2 : (2:ℕ) ≤ nvx.toNat := by omega
        have : (2:ℝ) ≤ ((nvx.toNat : ℕ) : ℝ) := by exact_mod_cast h2
        linarith
      · have h2 : (2:ℕ) ≤ nvy.toNat := by omega
        have : (2:ℝ) ≤ ((nvy.toNat : ℕ) : ℝ) := by exact_mod_cast h2
        linarith
  · intro hr i hi
    have hs := sin_theta_pos cv.toNat i hi
    have hrs : 0 < clampedRadius sx sy cr * Real.sin (theta cv.toNat i) :=
      mul_pos hr hs
    refine ⟨?_, ?_, ?_, ?_⟩
    · simp only [llOffset]
      refine lt_of_lt_of_le hrs (le_trans ?_ (le_max_left _ _))
      rw [abs_neg]
      exact le_abs_self _
    · simp only [ulOffset]
      refine lt_of_lt_of_le hrs (le_trans ?_ (le_max_right _ _))
      exact le_abs_self _
    · simp only [lrOffset]
      refine lt_of_lt_of_le hrs (le_trans ?_ (le_max_right _ _))
      rw [abs_neg]
      exact le_abs_self _
    · simp only [urOffset]
      refine lt_of_lt_of_le hrs (le_trans ?_ (le_max_left _ _))
      exact le_abs_self _

/-- Witness for C10 at the spec's scenario B input. -/
theorem C10_divisors_nonzero_witness :
    ((0:ℤ) < 4 ∧ (4:ℤ) ≤ 4) ∧
    (((0:ℤ) < 4 → 0 < ((((4:ℤ) - 2).toNat : ℕ) : ℝ) - 1 ∧
      0 < ((((4:ℤ) - 2).toNat : ℕ) : ℝ) - 1) ∧
    ((4:ℤ) = 0 → 0 < (((4:ℤ).toNat : ℕ) : ℝ) - 1 ∧
      0 < (((4:ℤ).toNat : ℕ) : ℝ) - 1) ∧
    (0 < clampedRadius 2 2 (3/10) → ∀ i < (4:ℤ).toNat,
      0 < max |(llOffset (clampedRadius 2 2 (3/10)) (4:ℤ).toNat i).1|
            |(llOffset (clampedRadius 2 2 (3/10)) (4:ℤ).toNat i).2| ∧
      0 < max |(ulOffset (clampedRadius 2 2 (3/10)) (4:ℤ).toNat i).1|
            |(ulOffset (clampedRadius 2 2 (3/10)) (4:ℤ).toNat i).2| ∧
      0 < max |(lrOffset (clampedRadius 2 2 (3/10)) (4:ℤ).toNat i).1|
            |(lrOffset (clampedRadius 2 2 (3/10)) (4:ℤ).toNat i).2| ∧
      0 < max |(urOffset (clampedRadius 2 2 (3/10)) (4:ℤ).toNat i).1|
            |(urOffset (clampedRadius 2 2 (3/10)) (4:ℤ).toNat i).2|)) :=
  ⟨⟨by norm_num, by norm_num⟩,
    C10_divisors_nonzero 2 2 4 4 (3/10) 4
      (Or.inl ⟨by norm_num, by norm_num, by norm_num⟩)⟩

end Lull
